/-
  Verification development for the TRUTH-SEEKERS claim-verification backend.

  The definitions below are a shallow embedding of the Python sources:
    backend/app/services/verification_service.py  (page-score aggregator)
    backend/app/agents/evidence_ranker.py         (evidence ranking and recency decay)
    backend/app/agents/retrieval.py               (evidence retrieval and URL dedup)
    backend/app/agents/query_planner.py           (search-query planning)
    backend/app/agents/verification.py            (verdict generation)
    backend/app/agents/explanation.py             (result formatting)
    backend/app/agents/pipeline.py                (stage orchestration and failure isolation)

  Python float arithmetic is modelled over the real numbers.  External LLM and
  search calls are modelled as oracle functions returning Except values: an
  Except.error models an exception raised by the external call (transport or
  parse failure), an Except.ok models a successful structured result.
-/
import Mathlib

namespace TruthSeekers

/-! ## Data model (backend/app/schemas/verification.py) -/

/-- Verdict enum from the schemas module. -/
inductive Verdict where
  | strongly_supported
  | supported
  | mixed
  | weak
  | contradicted
  | outdated
  | not_verifiable
deriving DecidableEq, Repr

/-- SourceRole enum from the schemas module. -/
inductive SourceRole where
  | supporting
  | contradicting
  | neutral
deriving DecidableEq, Repr

/-- SourceInfo schema.  The published_at datetime is kept abstract as an
optional string (its value never influences the verified algorithms). -/
structure SourceInfo where
  url : String
  domain : String
  snippet : String
  domain_score : ℝ
  published_at : Option String
  role : SourceRole

/-- ClaimSources schema: sources of a claim organised by role.  There are
exactly two lists; neutral-role sources have no list of their own. -/
structure ClaimSources where
  supporting : List SourceInfo := []
  contradicting : List SourceInfo := []

/-- ClaimResult schema (output-facing claim plus verdict plus sources). -/
structure ClaimResult where
  id : String
  span : ℤ × ℤ
  text : String
  claim_type : String
  topic : String
  time_sensitivity : String
  verdict : Verdict
  confidence : ℝ
  reasoning : String
  sources : ClaimSources

/-! ## Score aggregator
    (VerificationService._calculate_page_score, verification_service.py 73-173) -/

/-- The verdict_weights table of _calculate_page_score.  The Python dict
lookup carries default 0.5, but claim.verdict ranges over the Verdict enum
whose seven members are all in the table, so the function is total here. -/
def verdictWeight : Verdict → ℝ
  | .strongly_supported => 1.0
  | .supported => 0.85
  | .mixed => 0.50
  | .weak => 0.35
  | .contradicted => 0.10
  | .outdated => 0.40
  | .not_verifiable => 0.50

/-- len(claim.sources.supporting) -/
def supportingCount (c : ClaimResult) : ℕ := c.sources.supporting.length

/-- len(claim.sources.contradicting) -/
def contradictingCount (c : ClaimResult) : ℕ := c.sources.contradicting.length

/-- Python int() truncation toward zero, as a map from reals to integers. -/
noncomputable def pytrunc (x : ℝ) : ℤ := if 0 ≤ x then ⌊x⌋ else -⌊-x⌋

/-- Per-claim final score from the loop body of _calculate_page_score:
verdict weight times confidence, plus (when the claim has at least one
supporting or contradicting source) the support-ratio bonus and the
logarithmic supporting-count bonus, capped at 1.0. -/
noncomputable def claimFinalScore (c : ClaimResult) : ℝ :=
  if 0 < supportingCount c + contradictingCount c then
    min 1.0 (verdictWeight c.verdict * c.confidence
      + ((supportingCount c : ℝ) /
          ((supportingCount c : ℝ) + (contradictingCount c : ℝ))) ^ (0.7 : ℝ) * 0.15
      + min 0.15 (0.08 * Real.log ((supportingCount c : ℝ) + 1)))
  else verdictWeight c.verdict * c.confidence

/-- Position weight 1.0 + 0.3 / (i + 1) for the claim at index i. -/
noncomputable def positionWeight (i : ℕ) : ℝ := 1.0 + 0.3 / ((i : ℝ) + 1)

/-- weighted_sum accumulator of _calculate_page_score, starting at index i. -/
noncomputable def weightedSumFrom : List ClaimResult → ℕ → ℝ
  | [], _ => 0
  | c :: rest, i => claimFinalScore c * positionWeight i + weightedSumFrom rest (i + 1)

/-- total_weight accumulator of _calculate_page_score, starting at index i. -/
noncomputable def totalWeightFrom : List ClaimResult → ℕ → ℝ
  | [], _ => 0
  | _ :: rest, i => positionWeight i + totalWeightFrom rest (i + 1)

/-- total_supporting: sum over all claims of len(sources.supporting). -/
def totalSupporting (claims : List ClaimResult) : ℕ :=
  (claims.map supportingCount).sum

/-- total_contradicting: sum over all claims of len(sources.contradicting). -/
def totalContradicting (claims : List ClaimResult) : ℕ :=
  (claims.map contradictingCount).sum

/-- The global source bonus added to the base page score: the two guarded
branches of _calculate_page_score lines 149-159 (Python int() applied to a
positive float is the floor). -/
noncomputable def globalBonus (claims : List ClaimResult) : ℤ :=
  if 0 < totalSupporting claims then
    if 0.7 ≤ (totalSupporting claims : ℝ) /
          ((totalSupporting claims : ℝ) + (totalContradicting claims : ℝ)) ∧
        5 ≤ totalSupporting claims then
      pytrunc (min 10 (2 * Real.log (totalSupporting claims : ℝ)))
    else if 0.8 ≤ (totalSupporting claims : ℝ) /
          ((totalSupporting claims : ℝ) + (totalContradicting claims : ℝ)) ∧
        3 ≤ totalSupporting claims then
      pytrunc (min 8 (1.5 * Real.log (totalSupporting claims : ℝ)))
    else 0
  else 0

/-- VerificationService._calculate_page_score. -/
noncomputable def calculatePageScore (claims : List ClaimResult) : ℤ :=
  if claims.isEmpty then 50
  else if totalWeightFrom claims 0 = 0 then 50
  else min 100 (max 0
    (pytrunc (weightedSumFrom claims 0 / totalWeightFrom claims 0 * 100) + globalBonus claims))

/-! ## Evidence items and claim dictionaries -/

/-- Evidence item dictionary as produced by the retrieval agent and
consumed by the ranker, verifier and formatter. -/
structure EvidenceItem where
  url : String
  title : String
  snippet : String
  domain : String
  published_at : Option String
  relevance_score : ℝ
  domain_reputation : ℝ
  combined_score : ℝ

/-- Claim dictionary as passed between the pipeline agents. -/
structure ClaimDict where
  id : String
  text : String
  claim_type : String
  topic : String
  time_sensitivity : String
deriving DecidableEq, Repr

/-! ## Association-list model of Python dicts

Python dicts keyed by claim id are modelled as association lists in
insertion order; assignment updates the first entry with the key or
appends a fresh entry at the end, exactly like dict insertion order. -/

/-- dict lookup: value of the first entry carrying the key, if any. -/
def dictFind {α : Type} : List (String × α) → String → Option α
  | [], _ => none
  | (k, v) :: rest, key => if k == key then some v else dictFind rest key

/-- dict assignment d[key] = v: update the entry in place, else append. -/
def dictSet {α : Type} : List (String × α) → String → α → List (String × α)
  | [], key, v => [(key, v)]
  | (k, w) :: rest, key, v =>
    if k == key then (k, v) :: rest else (k, w) :: dictSet rest key v

/-! ## Evidence ranker (backend/app/agents/evidence_ranker.py) -/

/-- The decay_rate selected from the time_sensitivity of the claim
(_calculate_recency_score lines 191-199). -/
def decayRate (time_sensitivity : String) : ℝ :=
  if time_sensitivity = "high" then 90
  else if time_sensitivity = "medium" then 365
  else 1000

/-- EvidenceRankerAgent._calculate_recency_score.  The datetime parsing and
the subtraction against utcnow are external-time effects; they are abstracted
into the parsedAge argument: none models a missing or unparseable
publication date (the 0.5 neutral path), some age models a successful parse
yielding age_days = age.  The decay formula itself is embedded exactly:
clamp(0.5 ** (age_days / decay_rate), 0.1, 1.0). -/
noncomputable def recencyScore (parsedAge : Option ℤ) (time_sensitivity : String) : ℝ :=
  match parsedAge with
  | none => 0.5
  | some age => max 0.1 (min 1.0 ((0.5 : ℝ) ^ ((age : ℝ) / decayRate time_sensitivity)))

/-- EvidenceRankerAgent._get_relevance_score.  The oracle models the Groq
completion call composed with float() parsing of its content: Except.error is
any raised exception (transport or parse), Except.ok x is the parsed float,
which the source clamps into [0, 1]; failure yields the neutral 0.5. -/
noncomputable def getRelevanceScore
    (relOracle : ClaimDict → EvidenceItem → Except String ℝ)
    (claim : ClaimDict) (item : EvidenceItem) : ℝ :=
  match relOracle claim item with
  | .error _ => 0.5
  | .ok x => max 0.0 (min 1.0 x)

/-- EvidenceRankerAgent._score_evidence combined with the combined_score
assignment done by rank_evidence: returns the evidence item with its
relevance_score and combined_score fields updated.  ageOf abstracts the
published_at parsing of _calculate_recency_score (see recencyScore). -/
noncomputable def scoreEvidenceItem
    (relOracle : ClaimDict → EvidenceItem → Except String ℝ)
    (ageOf : Option String → Option ℤ)
    (claim : ClaimDict) (item : EvidenceItem) : EvidenceItem :=
  let relevance := getRelevanceScore relOracle claim item
  let domain_score := item.domain_reputation
  let recency := recencyScore (ageOf item.published_at) claim.time_sensitivity
  let combined := relevance * 0.5 + domain_score * 0.3 + recency * 0.2
  { item with relevance_score := relevance, combined_score := combined }

/-- Descending order on combined_score used by the sort in rank_evidence. -/
def scoreGE (a b : EvidenceItem) : Prop := b.combined_score ≤ a.combined_score

noncomputable instance : DecidableRel scoreGE := fun a b =>
  inferInstanceAs (Decidable (b.combined_score ≤ a.combined_score))

instance : IsTotal EvidenceItem scoreGE := ⟨fun a b => le_total b.combined_score a.combined_score⟩

instance : IsTrans EvidenceItem scoreGE := ⟨fun _ _ _ h h2 => le_trans h2 h⟩

/-- Python dict comprehension claims_by_id: the last claim with a given id
wins, and lookup is by id. -/
def claimsById (claims : List ClaimDict) (cid : String) : Option ClaimDict :=
  claims.reverse.find? (fun c => c.id == cid)

/-- EvidenceRankerAgent.rank_evidence: score every evidence item of every
claim present in the claim list, sort per claim by combined_score descending
(Python stable sort), and keep the top maxPerClaim items. -/
noncomputable def rankEvidence
    (relOracle : ClaimDict → EvidenceItem → Except String ℝ)
    (ageOf : Option String → Option ℤ)
    (claims : List ClaimDict)
    (evidence : List (String × List EvidenceItem))
    (maxPerClaim : ℕ) : List (String × List EvidenceItem) :=
  if claims.isEmpty || evidence.isEmpty then []
  else
    evidence.filterMap fun p =>
      match claimsById claims p.1 with
      | none => none
      | some claim =>
        let scored := p.2.map (scoreEvidenceItem relOracle ageOf claim)
        some (p.1, (List.insertionSort scoreGE scored).take maxPerClaim)

/-- settings.MAX_EVIDENCE_PER_CLAIM (backend/app/core/config.py). -/
def MAX_EVIDENCE_PER_CLAIM : ℕ := 10

/-! ## Retrieval agent (backend/app/agents/retrieval.py) -/

/-- The flat task list of fetch_evidence: one (claim_id, query) pair per
query of every claim, in iteration order (tasks plus claim_query_map). -/
def expandTasks : List (String × List String) → List (String × String)
  | [] => []
  | (cid, qs) :: rest => qs.map (fun q => (cid, q)) ++ expandTasks rest

/-- The gathered search results with return_exceptions=True: each task
yields either a raised exception (Except.error) or a result list.  The
searchOracle models one _search call with all provider fallbacks inside. -/
def gatherResults (searchOracle : String → Except String (List EvidenceItem))
    (queries : List (String × List String)) : List (String × Except String (List EvidenceItem)) :=
  (expandTasks queries).map (fun t => (t.1, searchOracle t.2))

/-- Inner dedup loop of fetch_evidence lines 81-85: walk the incoming items
keeping the first occurrence of every URL, with the already-present URL set
threaded explicitly (existing_urls in the source). -/
def addItemsDedup : List EvidenceItem → List String → List EvidenceItem →
    List EvidenceItem × List String
  | cur, seen, [] => (cur, seen)
  | cur, seen, item :: rest =>
    if item.url ∈ seen then addItemsDedup cur seen rest
    else addItemsDedup (cur ++ [item]) (seen ++ [item.url]) rest

/-- evidence[claim_id] = [] when the key is absent (lines 73-74). -/
def ensureKey (m : List (String × List EvidenceItem)) (cid : String) :
    List (String × List EvidenceItem) :=
  match dictFind m cid with
  | some _ => m
  | none => m ++ [(cid, [])]

/-- Update the bucket of an existing key in place. -/
def bucketUpdate : List (String × List EvidenceItem) → String →
    (List EvidenceItem → List EvidenceItem) → List (String × List EvidenceItem)
  | [], _, _ => []
  | (k, v) :: rest, cid, f =>
    if k == cid then (k, f v) :: rest else (k, v) :: bucketUpdate rest cid f

/-- Result-aggregation loop of fetch_evidence lines 72-85: exceptions are
skipped (contributing only the empty bucket entry), successful results are
merged with first-seen-wins dedup against the current bucket URLs. -/
def aggregateResults : List (String × Except String (List EvidenceItem)) →
    List (String × List EvidenceItem) → List (String × List EvidenceItem)
  | [], m => m
  | (cid, res) :: rest, m =>
    let m1 := ensureKey m cid
    let m2 := match res with
      | .error _ => m1
      | .ok items =>
        bucketUpdate m1 cid (fun cur => (addItemsDedup cur (cur.map (·.url)) items).1)
    aggregateResults rest m2

/-- RetrievalAgent.fetch_evidence. -/
def fetchEvidence (searchOracle : String → Except String (List EvidenceItem))
    (queries : List (String × List String)) : List (String × List EvidenceItem) :=
  if queries.isEmpty then []
  else aggregateResults (gatherResults searchOracle queries) []

/-! ## Query planner (backend/app/agents/query_planner.py) -/

/-- QueryPlannerAgent.plan_queries, per-claim body.  The oracle models the
Groq completion call composed with the bracket scan and json.loads:
Except.error is any raised exception (transport or json decode error),
ok none is a response without a bracket pair (start < 0 or end <= start),
ok (some l) is a successfully parsed JSON array l.  Both the no-bracket
path and the exception path fall back to the claim text truncated to 100
characters; a parsed array is capped at 3 queries. -/
def queriesForClaim (planOracle : ClaimDict → Except String (Option (List String)))
    (claim : ClaimDict) : List String :=
  match planOracle claim with
  | .error _ => [claim.text.take 100]
  | .ok none => [(claim.text.take 100)].take 3
  | .ok (some l) => l.take 3

/-- The queries dict accumulation loop of plan_queries. -/
def planQueriesLoop (planOracle : ClaimDict → Except String (Option (List String))) :
    List ClaimDict → List (String × List String) → List (String × List String)
  | [], m => m
  | claim :: rest, m =>
    planQueriesLoop planOracle rest (dictSet m claim.id (queriesForClaim planOracle claim))

/-- QueryPlannerAgent.plan_queries. -/
def planQueries (planOracle : ClaimDict → Except String (Option (List String)))
    (claims : List ClaimDict) : List (String × List String) :=
  if claims.isEmpty then [] else planQueriesLoop planOracle claims []

/-! ## Verification agent (backend/app/agents/verification.py) -/

/-- Verdict dictionary as produced by verify_claims. -/
structure VerdictDict where
  claim_id : String
  verdict : String
  confidence : ℝ
  reasoning : String
  supporting_sources : List String
  contradicting_sources : List String
  model_used : String

/-- Raw JSON object parsed by _verify_single_claim, with every field
optional (result.get defaults apply).  The confidence field is the value
after float() conversion; a float() failure is an exception of the oracle. -/
structure RawVerdict where
  verdict : Option String
  confidence : Option ℝ
  reasoning : Option String
  supporting_sources : Option (List String)
  contradicting_sources : Option (List String)

/-- settings.LLM_MODEL (backend/app/core/config.py). -/
def LLM_MODEL : String := "llama-3.3-70b-versatile"

/-- VerificationAgent._verify_single_claim normalisation (lines 171-178):
lower-cased verdict defaulting to not_verifiable, confidence clamped into
[0, 1] defaulting to 0.5, empty-string reasoning, empty source lists.  The
verdictOracle models the completion call composed with the brace scan and
json.loads (error = any raised exception, including the no-brace
ValueError). -/
noncomputable def verifySingleClaim
    (verdictOracle : ClaimDict → List EvidenceItem → Except String RawVerdict)
    (claim : ClaimDict) (evidence : List EvidenceItem) : Except String VerdictDict :=
  match verdictOracle claim evidence with
  | .error e => .error e
  | .ok r => .ok {
      claim_id := ""
      verdict := (r.verdict.getD "not_verifiable").toLower
      confidence := max 0.0 (min 1.0 (r.confidence.getD 0.5))
      reasoning := r.reasoning.getD ""
      supporting_sources := r.supporting_sources.getD []
      contradicting_sources := r.contradicting_sources.getD []
      model_used := LLM_MODEL }

/-- The conservative fallback verdict appended when verification of a
single claim raises (verify_claims lines 107-115). -/
def fallbackVerdict (cid : String) : VerdictDict :=
  { claim_id := cid
    verdict := "not_verifiable"
    confidence := 0.0
    reasoning := "Verification failed due to an error."
    supporting_sources := []
    contradicting_sources := []
    model_used := LLM_MODEL }

/-- VerificationAgent.verify_claims. -/
noncomputable def verifyClaims
    (verdictOracle : ClaimDict → List EvidenceItem → Except String RawVerdict)
    (claims : List ClaimDict)
    (evidence : List (String × List EvidenceItem)) : List VerdictDict :=
  if claims.isEmpty then []
  else
    claims.map fun claim =>
      let claimEvidence := (dictFind evidence claim.id).getD []
      match verifySingleClaim verdictOracle claim claimEvidence with
      | .ok v => { v with claim_id := claim.id }
      | .error _ => fallbackVerdict claim.id

/-! ## Explanation agent (backend/app/agents/explanation.py) -/

/-- Construction of one SourceInfo from an evidence item in _build_sources.
parseDate abstracts ExplanationAgent._parse_date (string to datetime with a
small format list, None on failure); its output never influences the
verified algorithms. -/
def mkSourceInfo (parseDate : Option String → Option String)
    (e : EvidenceItem) (role : SourceRole) : SourceInfo :=
  { url := e.url
    domain := e.domain
    snippet := e.snippet
    domain_score := e.domain_reputation
    published_at := parseDate e.published_at
    role := role }

/-- Python dict comprehension evidence_by_url: the last item with a given
URL wins. -/
def evidenceByUrl (evidence : List EvidenceItem) (url : String) : Option EvidenceItem :=
  evidence.reverse.find? (fun e => e.url == url)

/-- ExplanationAgent._build_sources: supporting URLs capped at 5 and
contradicting URLs capped at 3 are resolved against the ranked evidence;
when neither resolves to anything and evidence exists, the top 3 evidence
items are placed into the supporting list with role neutral. -/
def buildSources (parseDate : Option String → Option String)
    (evidence : List EvidenceItem)
    (supporting_urls contradicting_urls : List String) : ClaimSources :=
  if ((supporting_urls.take 5).filterMap
        (fun url => (evidenceByUrl evidence url).map
          (fun e => mkSourceInfo parseDate e .supporting))).isEmpty
      && ((contradicting_urls.take 3).filterMap
        (fun url => (evidenceByUrl evidence url).map
          (fun e => mkSourceInfo parseDate e .contradicting))).isEmpty
      && !evidence.isEmpty then
    { supporting := (evidence.take 3).map (fun e => mkSourceInfo parseDate e .neutral)
      contradicting := (contradicting_urls.take 3).filterMap
        (fun url => (evidenceByUrl evidence url).map
          (fun e => mkSourceInfo parseDate e .contradicting)) }
  else
    { supporting := (supporting_urls.take 5).filterMap
        (fun url => (evidenceByUrl evidence url).map
          (fun e => mkSourceInfo parseDate e .supporting))
      contradicting := (contradicting_urls.take 3).filterMap
        (fun url => (evidenceByUrl evidence url).map
          (fun e => mkSourceInfo parseDate e .contradicting)) }

/-- ExplanationAgent._parse_enum for the Verdict enum: unrecognised strings
fall back to the first declared member (strongly_supported). -/
def parseVerdict (s : String) : Verdict :=
  if s.toLower = "strongly_supported" then .strongly_supported
  else if s.toLower = "supported" then .supported
  else if s.toLower = "mixed" then .mixed
  else if s.toLower = "weak" then .weak
  else if s.toLower = "contradicted" then .contradicted
  else if s.toLower = "outdated" then .outdated
  else if s.toLower = "not_verifiable" then .not_verifiable
  else .strongly_supported

/-- ExplanationAgent.format_results, per-claim body: join the claim with
its verdict (defaults when absent) and its formatted sources. -/
def formatClaim (parseDate : Option String → Option String)
    (verdicts : List VerdictDict)
    (evidence : List (String × List EvidenceItem))
    (claim : ClaimDict) : ClaimResult :=
  let verdictData := (verdicts.reverse.find? (fun v => v.claim_id == claim.id))
  let claimEvidence := (dictFind evidence claim.id).getD []
  let sources := buildSources parseDate claimEvidence
    ((verdictData.map (·.supporting_sources)).getD [])
    ((verdictData.map (·.contradicting_sources)).getD [])
  { id := claim.id
    span := (0, 0)
    text := claim.text
    claim_type := claim.claim_type
    topic := claim.topic
    time_sensitivity := claim.time_sensitivity
    verdict := parseVerdict ((verdictData.map (·.verdict)).getD "not_verifiable")
    confidence := (verdictData.map (·.confidence)).getD 0.0
    reasoning := (verdictData.map (·.reasoning)).getD "Unable to verify this claim."
    sources := sources }

/-- ExplanationAgent.format_results. -/
def formatResults (parseDate : Option String → Option String)
    (claims : List ClaimDict)
    (verdicts : List VerdictDict)
    (evidence : List (String × List EvidenceItem)) : List ClaimResult :=
  if claims.isEmpty then []
  else claims.map (formatClaim parseDate verdicts evidence)

/-! ## Pipeline orchestrator (backend/app/agents/pipeline.py)

Each stage body is an external call that can raise; its behaviour is an
oracle returning Except.  Each _run_* wrapper below embeds the try/except
of the corresponding method of VerificationPipeline: the exception is
caught, a diagnostic string is appended to state.errors, and the
documented fallback is substituted. -/

/-- PipelineState TypedDict. -/
structure PipelineState where
  raw_text : String
  url : Option String
  vertical : String
  language : String
  clean_text : String
  word_count : ℕ
  extracted_claims : List ClaimDict
  verifiable_claims : List ClaimDict
  search_queries : List (String × List String)
  raw_evidence : List (String × List EvidenceItem)
  ranked_evidence : List (String × List EvidenceItem)
  verdicts : List VerdictDict
  claims : List ClaimResult
  models_used : List String
  sources_checked : ℕ
  errors : List String

/-- Behaviours of the eight agent calls made by the pipeline nodes. -/
structure StageOracles where
  ingestion : String → Except String (String × ℕ)
  decomposer : String → String → Except String (List ClaimDict)
  classifier : List ClaimDict → Except String (List ClaimDict)
  planner : List ClaimDict → String → Except String (List (String × List String))
  retrieval : List (String × List String) → Except String (List (String × List EvidenceItem))
  ranker : List ClaimDict → List (String × List EvidenceItem) →
    Except String (List (String × List EvidenceItem))
  verifier : List ClaimDict → List (String × List EvidenceItem) →
    Except String (List VerdictDict)
  explanation : List ClaimDict → List VerdictDict → List (String × List EvidenceItem) →
    Except String (List ClaimResult)

/-- VerificationPipeline._run_ingestion. -/
def runIngestion (oc : StageOracles) (st : PipelineState) : PipelineState :=
  match oc.ingestion st.raw_text with
  | .ok (t, wc) => { st with clean_text := t, word_count := wc }
  | .error e =>
    { st with errors := st.errors ++ ["Ingestion error: " ++ e]
              clean_text := st.raw_text }

/-- VerificationPipeline._run_claim_decomposition. -/
def runClaimDecomposition (oc : StageOracles) (st : PipelineState) : PipelineState :=
  match oc.decomposer st.clean_text st.vertical with
  | .ok cs => { st with extracted_claims := cs, models_used := st.models_used ++ [LLM_MODEL] }
  | .error e =>
    { st with errors := st.errors ++ ["Claim decomposition error: " ++ e]
              extracted_claims := [] }

/-- VerificationPipeline._run_claim_classification. -/
def runClaimClassification (oc : StageOracles) (st : PipelineState) : PipelineState :=
  match oc.classifier st.extracted_claims with
  | .ok v => { st with verifiable_claims := v }
  | .error e =>
    { st with errors := st.errors ++ ["Classification error: " ++ e]
              verifiable_claims := st.extracted_claims }

/-- VerificationPipeline._run_query_planning: on failure only the error is
recorded, the previous search_queries pass through unchanged. -/
def runQueryPlanning (oc : StageOracles) (st : PipelineState) : PipelineState :=
  match oc.planner st.verifiable_claims st.vertical with
  | .ok q => { st with search_queries := q }
  | .error e => { st with errors := st.errors ++ ["Query planning error: " ++ e] }

/-- VerificationPipeline._run_retrieval: on failure only the error is
recorded, the previous raw_evidence passes through unchanged. -/
def runRetrieval (oc : StageOracles) (st : PipelineState) : PipelineState :=
  match oc.retrieval st.search_queries with
  | .ok ev =>
    { st with raw_evidence := ev
              sources_checked := (ev.map (fun p => p.2.length)).sum }
  | .error e => { st with errors := st.errors ++ ["Retrieval error: " ++ e] }

/-- VerificationPipeline._run_evidence_ranking: on failure the raw
(untruncated) evidence is substituted for the ranked evidence. -/
def runEvidenceRanking (oc : StageOracles) (st : PipelineState) : PipelineState :=
  match oc.ranker st.verifiable_claims st.raw_evidence with
  | .ok r => { st with ranked_evidence := r }
  | .error e =>
    { st with errors := st.errors ++ ["Ranking error: " ++ e]
              ranked_evidence := st.raw_evidence }

/-- VerificationPipeline._run_verification: on failure only the error is
recorded, the previous verdicts pass through unchanged. -/
def runVerificationStage (oc : StageOracles) (st : PipelineState) : PipelineState :=
  match oc.verifier st.verifiable_claims st.ranked_evidence with
  | .ok v => { st with verdicts := v }
  | .error e => { st with errors := st.errors ++ ["Verification error: " ++ e] }

/-- VerificationPipeline._run_explanation. -/
def runExplanation (oc : StageOracles) (st : PipelineState) : PipelineState :=
  match oc.explanation st.verifiable_claims st.verdicts st.ranked_evidence with
  | .ok c => { st with claims := c }
  | .error e =>
    { st with errors := st.errors ++ ["Explanation error: " ++ e]
              claims := [] }

/-- The linear eight-node LangGraph of _build_graph, applied to a state. -/
def pipelineRun (oc : StageOracles) (st : PipelineState) : PipelineState :=
  runExplanation oc (runVerificationStage oc (runEvidenceRanking oc (runRetrieval oc
    (runQueryPlanning oc (runClaimClassification oc
      (runClaimDecomposition oc (runIngestion oc st)))))))

/-- The initial state built by VerificationPipeline.run. -/
def initState (text : String) (url : Option String) (vertical language : String) :
    PipelineState :=
  { raw_text := text
    url := url
    vertical := vertical
    language := language
    clean_text := ""
    word_count := 0
    extracted_claims := []
    verifiable_claims := []
    search_queries := []
    raw_evidence := []
    ranked_evidence := []
    verdicts := []
    claims := []
    models_used := []
    sources_checked := 0
    errors := [] }

/-! ## Helper lemmas -/

theorem decayRate_pos (ts : String) : 0 < decayRate ts := by
  unfold decayRate
  split
  · norm_num
  · split <;> norm_num

theorem half_rpow_anti {x y : ℝ} (h : x ≤ y) : (0.5 : ℝ) ^ y ≤ (0.5 : ℝ) ^ x :=
  Real.rpow_le_rpow_of_exponent_ge (by norm_num) (by norm_num) h

theorem recencyScore_clamped (parsedAge : Option ℤ) (ts : String) :
    0 ≤ recencyScore parsedAge ts ∧ recencyScore parsedAge ts ≤ 1 := by
  match parsedAge with
  | none => unfold recencyScore; norm_num
  | some age =>
    unfold recencyScore
    constructor
    · exact le_trans (by norm_num) (le_max_left 0.1 _)
    · exact max_le (by norm_num) (le_trans (min_le_left _ _) (by norm_num))

/-- Claim C3: for every publication date parsed to a non-negative age, the
recency score equals clamp(0.5 ** (age_days / decay_rate), 0.1, 1.0) with
decay rate 90/365/1000 for high/medium/low sensitivity; it is monotonically
non-increasing in age_days at fixed sensitivity, and at equal non-negative
age the high-sensitivity score is at most the medium one, which is at most
the low one. -/
theorem C3_recency_decay :
    (∀ (age : ℤ) (ts : String), 0 ≤ age →
      recencyScore (some age) ts =
        max 0.1 (min 1.0 ((0.5 : ℝ) ^ ((age : ℝ) / decayRate ts))) ∧
      (ts = "high" → decayRate ts = 90) ∧
      (ts = "medium" → decayRate ts = 365) ∧
      (ts = "low" → decayRate ts = 1000)) ∧
    (∀ (ts : String) (a1 a2 : ℤ), a1 ≤ a2 →
      recencyScore (some a2) ts ≤ recencyScore (some a1) ts) ∧
    (∀ age : ℤ, 0 ≤ age →
      recencyScore (some age) "high" ≤ recencyScore (some age) "medium" ∧
      recencyScore (some age) "medium" ≤ recencyScore (some age) "low") := by
  refine ⟨?_, ?_, ?_⟩
  · intro age ts _
    refine ⟨rfl, ?_, ?_, ?_⟩ <;> intro h <;> simp [decayRate, h]
  · intro ts a1 a2 h
    unfold recencyScore
    refine max_le_max (le_refl _) (min_le_min (le_refl _) (half_rpow_anti ?_))
    have hd := decayRate_pos ts
    have h2 : (a1 : ℝ) ≤ (a2 : ℝ) := by exact_mod_cast h
    exact div_le_div_of_nonneg_right h2 hd.le
  · intro age hage
    have hc : (0 : ℝ) ≤ (age : ℝ) := by exact_mod_cast hage
    constructor
    · unfold recencyScore
      refine max_le_max (le_refl _) (min_le_min (le_refl _) (half_rpow_anti ?_))
      have : decayRate "medium" = 365 := by simp [decayRate]
      rw [this]
      have : decayRate "high" = 90 := by simp [decayRate]
      rw [this]
      exact div_le_div_of_nonneg_left hc (by norm_num) (by norm_num)
    · unfold recencyScore
      refine max_le_max (le_refl _) (min_le_min (le_refl _) (half_rpow_anti ?_))
      have : decayRate "medium" = 365 := by simp [decayRate]
      rw [this]
      have : decayRate "low" = 1000 := by simp [decayRate]
      rw [this]
      exact div_le_div_of_nonneg_left hc (by norm_num) (by norm_num)

/-- Witness for C3 at concrete ages 3 and 5 and each sensitivity level. -/
theorem C3_witness :
    (recencyScore (some 3) "high" =
      max 0.1 (min 1.0 ((0.5 : ℝ) ^ ((3 : ℝ) / decayRate "high")))) ∧
    recencyScore (some 5) "high" ≤ recencyScore (some 3) "high" ∧
    recencyScore (some 3) "high" ≤ recencyScore (some 3) "medium" ∧
    recencyScore (some 3) "medium" ≤ recencyScore (some 3) "low" :=
  ⟨(C3_recency_decay.1 3 "high" (by norm_num)).1,
   C3_recency_decay.2.1 "high" 3 5 (by norm_num),
   (C3_recency_decay.2.2 3 (by norm_num)).1,
   (C3_recency_decay.2.2 3 (by norm_num)).2⟩

theorem getRelevanceScore_clamped (relOracle : ClaimDict → EvidenceItem → Except String ℝ)
    (claim : ClaimDict) (item : EvidenceItem) :
    0 ≤ getRelevanceScore relOracle claim item ∧ getRelevanceScore relOracle claim item ≤ 1 := by
  unfold getRelevanceScore
  cases hx : relOracle claim item with
  | error e => norm_num
  | ok x =>
    refine ⟨le_trans (by norm_num) (le_max_left _ _),
      max_le (by norm_num) (le_trans (min_le_left _ _) (by norm_num))⟩

theorem scoreEvidenceItem_fields (relOracle : ClaimDict → EvidenceItem → Except String ℝ)
    (ageOf : Option String → Option ℤ) (claim : ClaimDict) (item : EvidenceItem) :
    (scoreEvidenceItem relOracle ageOf claim item).url = item.url ∧
    (scoreEvidenceItem relOracle ageOf claim item).published_at = item.published_at ∧
    (scoreEvidenceItem relOracle ageOf claim item).domain_reputation = item.domain_reputation ∧
    (scoreEvidenceItem relOracle ageOf claim item).relevance_score =
      getRelevanceScore relOracle claim item ∧
    (scoreEvidenceItem relOracle ageOf claim item).combined_score =
      getRelevanceScore relOracle claim item * 0.5 + item.domain_reputation * 0.3 +
        recencyScore (ageOf item.published_at) claim.time_sensitivity * 0.2 := by
  unfold scoreEvidenceItem
  exact ⟨rfl, rfl, rfl, rfl, rfl⟩

/-- Claim C2: assuming every incoming evidence item has domain_reputation in
[0, 1], every item in the ranked output carries
combined_score = relevance * 0.5 + domain_reputation * 0.3 + recency * 0.2,
which lies in [0, 1], and every per-claim ranked list is sorted in
descending order of combined_score, is drawn from the scored input items of
that claim, and is truncated to at most maxPerClaim items. -/
theorem C2_rank_evidence_sorted_bounded
    (relOracle : ClaimDict → EvidenceItem → Except String ℝ)
    (ageOf : Option String → Option ℤ)
    (claims : List ClaimDict)
    (evidence : List (String × List EvidenceItem))
    (maxPerClaim : ℕ)
    (hdom : ∀ p ∈ evidence, ∀ it ∈ p.2,
      0 ≤ it.domain_reputation ∧ it.domain_reputation ≤ 1) :
    ∀ q ∈ rankEvidence relOracle ageOf claims evidence maxPerClaim,
      q.2.length ≤ maxPerClaim ∧
      (q.2.map (fun e => e.combined_score)).Sorted (· ≥ ·) ∧
      ∃ c items, claimsById claims q.1 = some c ∧ (q.1, items) ∈ evidence ∧
        List.Subperm q.2 (items.map (scoreEvidenceItem relOracle ageOf c)) ∧
        ∀ it ∈ q.2,
          it.combined_score = it.relevance_score * 0.5 + it.domain_reputation * 0.3 +
            recencyScore (ageOf it.published_at) c.time_sensitivity * 0.2 ∧
          0 ≤ it.combined_score ∧ it.combined_score ≤ 1 := by
  intro q hq
  unfold rankEvidence at hq
  by_cases hg : (claims.isEmpty || evidence.isEmpty) = true
  · rw [if_pos hg] at hq
    simp at hq
  · rw [if_neg hg] at hq
    obtain ⟨p, hp, hpq⟩ := List.mem_filterMap.mp hq
    rcases hc : claimsById claims p.1 with _ | c
    · rw [hc] at hpq; simp at hpq
    · rw [hc] at hpq
      simp only [Option.some_inj] at hpq
      subst hpq
      set scored := p.2.map (scoreEvidenceItem relOracle ageOf c) with hscored
      have hsorted : List.Sorted scoreGE (List.insertionSort scoreGE scored) :=
        List.sorted_insertionSort scoreGE scored
      have htake : ((List.insertionSort scoreGE scored).take maxPerClaim).Sublist
          (List.insertionSort scoreGE scored) := List.take_sublist _ _
      refine ⟨?_, ?_, c, p.2, hc, by simpa using hp, ?_, ?_⟩
      · simp [min_le_left maxPerClaim (List.insertionSort scoreGE scored).length]
      · exact ((hsorted.sublist htake).map _ (fun a b hab => hab))
      · exact (htake.subperm).trans (List.perm_insertionSort scoreGE scored).subperm
      · intro it hit
        have hmem : it ∈ scored := by
          have h1 : it ∈ List.insertionSort scoreGE scored := List.mem_of_mem_take hit
          exact (List.perm_insertionSort scoreGE scored).mem_iff.mp h1
        obtain ⟨it0, hit0, hit0eq⟩ := List.mem_map.mp hmem
        subst hit0eq
        obtain ⟨hu, hpub, hdomeq, hrel, hcomb⟩ :=
          scoreEvidenceItem_fields relOracle ageOf c it0
        have hrelb := getRelevanceScore_clamped relOracle c it0
        have hrecb := recencyScore_clamped (ageOf it0.published_at) c.time_sensitivity
        have hdomb := hdom p hp it0 hit0
        refine ⟨by rw [hcomb, hrel, hdomeq, hpub], ?_, ?_⟩
        · rw [hcomb]
          have h1 : 0 ≤ getRelevanceScore relOracle c it0 * 0.5 :=
            mul_nonneg hrelb.1 (by norm_num)
          have h2 : 0 ≤ it0.domain_reputation * 0.3 := mul_nonneg hdomb.1 (by norm_num)
          have h3 : 0 ≤ recencyScore (ageOf it0.published_at) c.time_sensitivity * 0.2 :=
            mul_nonneg hrecb.1 (by norm_num)
          linarith
        · rw [hcomb]
          have h1 := hrelb.2
          have h2 := hdomb.2
          have h3 := hrecb.2
          linarith

/-- Concrete claim used by the C2 witness. -/
def c2wClaim : ClaimDict :=
  { id := "c1", text := "t", claim_type := "general", topic := "general",
    time_sensitivity := "low" }

/-- Concrete evidence item used by the C2 witness. -/
def c2wItem : EvidenceItem :=
  { url := "https://example.com", title := "t", snippet := "s",
    domain := "example.com", published_at := none,
    relevance_score := 0, domain_reputation := 1, combined_score := 0 }

/-- Failing relevance oracle used by the C2 witness. -/
def c2wOracle : ClaimDict → EvidenceItem → Except String ℝ :=
  fun _ _ => Except.error "no llm"

/-- Age parser used by the C2 witness. -/
def c2wAge : Option String → Option ℤ := fun _ => none

/-- The single ranked entry produced on the C2 witness input. -/
noncomputable def c2wOut : String × List EvidenceItem :=
  ("c1", [scoreEvidenceItem c2wOracle c2wAge c2wClaim c2wItem])

/-- Witness for C2 on a singleton claim and a one-item evidence map. -/
theorem C2_witness :
    c2wOut.2.length ≤ MAX_EVIDENCE_PER_CLAIM ∧
    (c2wOut.2.map (fun e => e.combined_score)).Sorted (· ≥ ·) ∧
    ∃ c items, claimsById [c2wClaim] c2wOut.1 = some c ∧
      (c2wOut.1, items) ∈ [("c1", [c2wItem])] ∧
      List.Subperm c2wOut.2 (items.map (scoreEvidenceItem c2wOracle c2wAge c)) ∧
      ∀ it ∈ c2wOut.2,
        it.combined_score = it.relevance_score * 0.5 + it.domain_reputation * 0.3 +
          recencyScore (c2wAge it.published_at) c.time_sensitivity * 0.2 ∧
        0 ≤ it.combined_score ∧ it.combined_score ≤ 1 := by
  have hmem : c2wOut ∈
      rankEvidence c2wOracle c2wAge [c2wClaim] [("c1", [c2wItem])] MAX_EVIDENCE_PER_CLAIM := by
    have h : rankEvidence c2wOracle c2wAge [c2wClaim] [("c1", [c2wItem])]
        MAX_EVIDENCE_PER_CLAIM = [c2wOut] := rfl
    rw [h]
    exact List.mem_singleton.mpr rfl
  exact C2_rank_evidence_sorted_bounded c2wOracle c2wAge [c2wClaim] [("c1", [c2wItem])]
    MAX_EVIDENCE_PER_CLAIM
    (by
      intro p hp it hit
      simp only [List.mem_singleton] at hp
      rw [hp] at hit
      simp only [List.mem_singleton] at hit
      rw [hit]
      unfold c2wItem
      norm_num)
    c2wOut hmem

/-! ## Association-list lemmas for the retrieval dedup proof -/

/-- Keys of an association list are pairwise distinct (true of every Python
dict and preserved by the aggregation loop). -/
def keysNodup {α : Type} (m : List (String × α)) : Prop := (m.map Prod.fst).Nodup

theorem dictFind_eq_none_iff {α : Type} (m : List (String × α)) (k : String) :
    dictFind m k = none ↔ k ∉ m.map Prod.fst := by
  induction m with
  | nil => simp [dictFind]
  | cons p rest ih =>
    rcases p with ⟨k1, v1⟩
    by_cases h : k1 = k
    · subst h
      simp [dictFind]
    · simp only [dictFind, beq_iff_eq, if_neg h, List.map_cons, List.mem_cons]
      rw [ih]
      constructor
      · intro hn hc
        rcases hc with hc | hc
        · exact h hc.symm
        · exact hn hc
      · intro hn hc
        exact hn (Or.inr hc)

theorem dictFind_eq_of_mem {α : Type} (m : List (String × α)) (p : String × α)
    (hp : p ∈ m) (hn : keysNodup m) : dictFind m p.1 = some p.2 := by
  induction m with
  | nil => simp at hp
  | cons q rest ih =>
    rcases q with ⟨k1, v1⟩
    unfold keysNodup at hn
    simp only [List.map_cons, List.nodup_cons] at hn
    rcases List.mem_cons.mp hp with h | h
    · rw [h]
      simp [dictFind]
    · have hne : k1 ≠ p.1 := by
        intro he
        exact hn.1 (he ▸ (List.mem_map.mpr ⟨p, h, rfl⟩))
      simp only [dictFind, beq_iff_eq, if_neg hne]
      exact ih h hn.2

theorem dictFind_append {α : Type} (a b : List (String × α)) (k : String) :
    dictFind (a ++ b) k =
      match dictFind a k with
      | some v => some v
      | none => dictFind b k := by
  induction a with
  | nil => rfl
  | cons p rest ih =>
    rcases p with ⟨k1, v1⟩
    simp only [List.cons_append, dictFind]
    by_cases hk : (k1 == k) = true
    · rw [if_pos hk, if_pos hk]
    · rw [if_neg hk, if_neg hk]
      exact ih

theorem ensureKey_find_self (m : List (String × List EvidenceItem)) (cid : String) :
    dictFind (ensureKey m cid) cid = some ((dictFind m cid).getD []) := by
  unfold ensureKey
  cases h : dictFind m cid with
  | some v => simp [h]
  | none =>
    rw [dictFind_append, h]
    simp [dictFind]

theorem ensureKey_find_other (m : List (String × List EvidenceItem)) (cid k : String)
    (hne : k ≠ cid) : dictFind (ensureKey m cid) k = dictFind m k := by
  unfold ensureKey
  cases h : dictFind m cid with
  | some v => rfl
  | none =>
    rw [dictFind_append]
    cases h2 : dictFind m k with
    | some v => rfl
    | none => simp [dictFind, beq_iff_eq, Ne.symm hne]

theorem ensureKey_keys (m : List (String × List EvidenceItem)) (cid : String) :
    (ensureKey m cid).map Prod.fst = m.map Prod.fst ∨
    ((ensureKey m cid).map Prod.fst = m.map Prod.fst ++ [cid] ∧ cid ∉ m.map Prod.fst) := by
  unfold ensureKey
  cases h : dictFind m cid with
  | some v => exact Or.inl rfl
  | none =>
    right
    exact ⟨by simp, (dictFind_eq_none_iff m cid).mp h⟩

theorem ensureKey_keysNodup (m : List (String × List EvidenceItem)) (cid : String)
    (hn : keysNodup m) : keysNodup (ensureKey m cid) := by
  rcases ensureKey_keys m cid with h | ⟨h, hmem⟩
  · unfold keysNodup
    rw [h]
    exact hn
  · unfold keysNodup
    rw [h]
    refine List.Nodup.append hn (List.nodup_singleton cid) ?_
    intro a ha hb
    simp only [List.mem_singleton] at hb
    exact hmem (hb ▸ ha)

theorem bucketUpdate_find_self (m : List (String × List EvidenceItem)) (cid : String)
    (f : List EvidenceItem → List EvidenceItem) (v : List EvidenceItem)
    (h : dictFind m cid = some v) :
    dictFind (bucketUpdate m cid f) cid = some (f v) := by
  induction m with
  | nil => simp [dictFind] at h
  | cons p rest ih =>
    rcases p with ⟨k1, v1⟩
    simp only [dictFind, beq_iff_eq] at h
    simp only [bucketUpdate, beq_iff_eq]
    by_cases hk : k1 = cid
    · rw [if_pos hk] at h
      rw [if_pos hk]
      simp only [dictFind, beq_iff_eq, if_pos hk]
      rw [Option.some_inj.mp h]
    · rw [if_neg hk] at h
      rw [if_neg hk]
      simp only [dictFind, beq_iff_eq, if_neg hk]
      exact ih h

theorem bucketUpdate_find_other (m : List (String × List EvidenceItem)) (cid k : String)
    (f : List EvidenceItem → List EvidenceItem) (hne : k ≠ cid) :
    dictFind (bucketUpdate m cid f) k = dictFind m k := by
  induction m with
  | nil => rfl
  | cons p rest ih =>
    rcases p with ⟨k1, v1⟩
    simp only [bucketUpdate, beq_iff_eq]
    by_cases hk : k1 = cid
    · rw [if_pos hk]
      simp only [dictFind, beq_iff_eq]
      rw [if_neg (hk ▸ fun he => hne he.symm), if_neg (hk ▸ fun he => hne he.symm)]
    · rw [if_neg hk]
      simp only [dictFind, beq_iff_eq]
      by_cases hk2 : k1 = k
      · rw [if_pos hk2, if_pos hk2]
      · rw [if_neg hk2, if_neg hk2]
        exact ih

theorem bucketUpdate_keys (m : List (String × List EvidenceItem)) (cid : String)
    (f : List EvidenceItem → List EvidenceItem) :
    (bucketUpdate m cid f).map Prod.fst = m.map Prod.fst := by
  induction m with
  | nil => rfl
  | cons p rest ih =>
    rcases p with ⟨k1, v1⟩
    simp only [bucketUpdate, beq_iff_eq]
    by_cases hk : k1 = cid
    · rw [if_pos hk]
      simp
    · rw [if_neg hk]
      simp [ih]

/-! ## First-seen-wins deduplication (spec wording) and its relation to the
aggregation loop of fetch_evidence -/

/-- Reference dedup from the spec wording: walk the arriving items in order
and keep an item exactly when its URL has not been seen before. -/
def keepFirstByUrl : List EvidenceItem → List EvidenceItem → List EvidenceItem
  | acc, [] => acc
  | acc, item :: rest =>
    if item.url ∈ acc.map (fun e => e.url) then keepFirstByUrl acc rest
    else keepFirstByUrl (acc ++ [item]) rest

/-- The successful items of one search result (an exception contributes
nothing). -/
def okItems : Except String (List EvidenceItem) → List EvidenceItem
  | .ok items => items
  | .error _ => []

/-- All items arriving for one claim id, in task order, across the gathered
search results. -/
def arrivalsFor (k : String) : List (String × Except String (List EvidenceItem)) →
    List EvidenceItem
  | [] => []
  | (cid, res) :: rest => (if cid = k then okItems res else []) ++ arrivalsFor k rest

/-- The explicit seen-URL set threaded by the source loop stays in sync with
the URLs of the accumulated bucket, so the loop equals the reference dedup. -/
theorem addItemsDedup_eq_keepFirst (items : List EvidenceItem) :
    ∀ (cur : List EvidenceItem) (seen : List String), seen = cur.map (fun e => e.url) →
      (addItemsDedup cur seen items).1 = keepFirstByUrl cur items := by
  induction items with
  | nil => intro cur seen h; rfl
  | cons item rest ih =>
    intro cur seen h
    simp only [addItemsDedup, keepFirstByUrl]
    subst h
    by_cases hmem : item.url ∈ cur.map (fun e => e.url)
    · rw [if_pos hmem, if_pos hmem]
      exact ih cur _ rfl
    · rw [if_neg hmem, if_neg hmem]
      exact ih (cur ++ [item]) _ (by simp)

theorem keepFirstByUrl_append (xs ys : List EvidenceItem) :
    ∀ acc, keepFirstByUrl acc (xs ++ ys) = keepFirstByUrl (keepFirstByUrl acc xs) ys := by
  induction xs with
  | nil => intro acc; rfl
  | cons item rest ih =>
    intro acc
    simp only [List.cons_append, keepFirstByUrl]
    by_cases hmem : item.url ∈ acc.map (fun e => e.url)
    · rw [if_pos hmem, if_pos hmem]
      exact ih acc
    · rw [if_neg hmem, if_neg hmem]
      exact ih (acc ++ [item])

theorem keepFirstByUrl_nodup (xs : List EvidenceItem) :
    ∀ acc, (acc.map (fun e => e.url)).Nodup →
      ((keepFirstByUrl acc xs).map (fun e => e.url)).Nodup := by
  induction xs with
  | nil => intro acc h; exact h
  | cons item rest ih =>
    intro acc h
    simp only [keepFirstByUrl]
    by_cases hmem : item.url ∈ acc.map (fun e => e.url)
    · rw [if_pos hmem]
      exact ih acc h
    · rw [if_neg hmem]
      refine ih (acc ++ [item]) ?_
      simp only [List.map_append, List.map_cons, List.map_nil]
      refine List.Nodup.append h (List.nodup_singleton _) ?_
      intro a ha hb
      simp only [List.mem_singleton] at hb
      exact hmem (hb ▸ ha)

/-- Characterisation of the aggregation loop of fetch_evidence: the bucket
of each claim id is exactly the first-seen-wins dedup of the items arriving
for that claim, continued from whatever the bucket already held. -/
theorem aggregateResults_find (rs : List (String × Except String (List EvidenceItem))) :
    ∀ (m : List (String × List EvidenceItem)), keysNodup m →
      keysNodup (aggregateResults rs m) ∧
      ∀ k, dictFind (aggregateResults rs m) k =
        Option.elim (dictFind m k)
          (if k ∈ rs.map Prod.fst then some (keepFirstByUrl [] (arrivalsFor k rs)) else none)
          (fun v => some (keepFirstByUrl v (arrivalsFor k rs))) := by
  induction rs with
  | nil =>
    intro m hm
    refine ⟨hm, fun k => ?_⟩
    cases h : dictFind m k <;>
      simp [aggregateResults, arrivalsFor, keepFirstByUrl, h]
  | cons pr rest ih =>
    intro m hm
    rcases pr with ⟨cid, res⟩
    have hm1 : keysNodup (ensureKey m cid) := ensureKey_keysNodup m cid hm
    rcases res with e | items
    · -- the search task raised: only the empty bucket entry is ensured
      have hstep : aggregateResults ((cid, Except.error e) :: rest) m =
          aggregateResults rest (ensureKey m cid) := rfl
      obtain ⟨hkn, hfind⟩ := ih (ensureKey m cid) hm1
      rw [hstep]
      refine ⟨hkn, fun k => ?_⟩
      rw [hfind k]
      have harr : arrivalsFor k ((cid, Except.error e) :: rest) = arrivalsFor k rest := by
        simp [arrivalsFor, okItems]
      by_cases hk : k = cid
      · subst hk
        rw [ensureKey_find_self]
        cases hf : dictFind m k with
        | some v =>
          simp only [hf, Option.getD_some, Option.elim_some, harr]
        | none =>
          simp only [hf, Option.getD_none, Option.elim_some, Option.elim_none, harr,
            List.map_cons]
          rw [if_pos (List.mem_cons_self k (rest.map Prod.fst))]
      · rw [ensureKey_find_other m cid k hk]
        cases hf : dictFind m k with
        | some v => simp only [Option.elim_some, harr]
        | none =>
          simp only [Option.elim_none, harr, List.map_cons]
          by_cases hmem : k ∈ List.map Prod.fst rest
          · rw [if_pos hmem, if_pos (List.mem_cons_of_mem cid hmem)]
          · have hcc : k ∉ cid :: List.map Prod.fst rest := by
              intro hc
              rcases List.mem_cons.mp hc with hc2 | hc2
              · exact hk hc2
              · exact hmem hc2
            rw [if_neg hmem, if_neg hcc]
    · -- the search task succeeded: dedup-merge into the bucket
      have hstep : aggregateResults ((cid, Except.ok items) :: rest) m =
          aggregateResults rest
            (bucketUpdate (ensureKey m cid) cid
              (fun cur => (addItemsDedup cur (cur.map (fun e => e.url)) items).1)) := rfl
      have hm2 : keysNodup (bucketUpdate (ensureKey m cid) cid
          (fun cur => (addItemsDedup cur (cur.map (fun e => e.url)) items).1)) := by
        unfold keysNodup
        rw [bucketUpdate_keys]
        exact hm1
      obtain ⟨hkn, hfind⟩ := ih _ hm2
      rw [hstep]
      refine ⟨hkn, fun k => ?_⟩
      rw [hfind k]
      have hfind_cid : dictFind (bucketUpdate (ensureKey m cid) cid
            (fun cur => (addItemsDedup cur (cur.map (fun e => e.url)) items).1)) cid =
          some (keepFirstByUrl ((dictFind m cid).getD []) items) := by
        rw [bucketUpdate_find_self (ensureKey m cid) cid _ ((dictFind m cid).getD [])
          (ensureKey_find_self m cid)]
        rw [addItemsDedup_eq_keepFirst items ((dictFind m cid).getD []) _ rfl]
      by_cases hk : k = cid
      · subst hk
        rw [hfind_cid]
        have harr : arrivalsFor k ((k, Except.ok items) :: rest) =
            items ++ arrivalsFor k rest := by
          simp [arrivalsFor, okItems]
        cases hf : dictFind m k with
        | some v =>
          simp only [hf, Option.getD_some, Option.elim_some, harr, keepFirstByUrl_append]
        | none =>
          simp only [hf, Option.getD_none, Option.elim_some, Option.elim_none, harr,
            List.map_cons, keepFirstByUrl_append]
          rw [if_pos (List.mem_cons_self k (rest.map Prod.fst))]
      · rw [bucketUpdate_find_other (ensureKey m cid) cid k _ hk,
          ensureKey_find_other m cid k hk]
        have harr : arrivalsFor k ((cid, Except.ok items) :: rest) = arrivalsFor k rest := by
          simp [arrivalsFor, okItems, Ne.symm hk]
        cases hf : dictFind m k with
        | some v => simp only [Option.elim_some, harr]
        | none =>
          simp only [Option.elim_none, harr, List.map_cons]
          by_cases hmem : k ∈ List.map Prod.fst rest
          · rw [if_pos hmem, if_pos (List.mem_cons_of_mem cid hmem)]
          · have hcc : k ∉ cid :: List.map Prod.fst rest := by
              intro hc
              rcases List.mem_cons.mp hc with hc2 | hc2
              · exact hk hc2
              · exact hmem hc2
            rw [if_neg hmem, if_neg hcc]

/-- Claim C7: for every search-provider behaviour and every query map, the
per-claim evidence lists returned by fetch_evidence never contain two items
with the same URL, and each list is exactly the first-seen-wins dedup of the
items that arrived for that claim in task order. -/
theorem C7_fetch_evidence_dedup
    (searchOracle : String → Except String (List EvidenceItem))
    (queries : List (String × List String)) :
    ∀ q ∈ fetchEvidence searchOracle queries,
      (q.2.map (fun e => e.url)).Nodup ∧
      q.2 = keepFirstByUrl [] (arrivalsFor q.1 (gatherResults searchOracle queries)) := by
  intro q hq
  unfold fetchEvidence at hq
  by_cases hg : queries.isEmpty = true
  · rw [if_pos hg] at hq
    simp at hq
  · rw [if_neg hg] at hq
    obtain ⟨hkn, hfind⟩ := aggregateResults_find (gatherResults searchOracle queries) []
      (by simp [keysNodup])
    have hq2 := dictFind_eq_of_mem _ q hq hkn
    have hq3 := hfind q.1
    rw [hq2] at hq3
    have hnil : dictFind ([] : List (String × List EvidenceItem)) q.1 = none := rfl
    rw [hnil, Option.elim_none] at hq3
    by_cases hmem : q.1 ∈ (gatherResults searchOracle queries).map Prod.fst
    · rw [if_pos hmem] at hq3
      have heq : q.2 = keepFirstByUrl [] (arrivalsFor q.1 (gatherResults searchOracle queries)) :=
        Option.some_inj.mp hq3
      exact ⟨heq ▸ keepFirstByUrl_nodup _ [] (by simp), heq⟩
    · rw [if_neg hmem] at hq3
      exact absurd hq3 (by simp)

/-- Evidence item with URL u1 used by the C7 witness. -/
def c7wItemA : EvidenceItem :=
  { url := "u1", title := "first", snippet := "a", domain := "example.com",
    published_at := none, relevance_score := 0, domain_reputation := 1, combined_score := 0 }

/-- Duplicate-URL evidence item used by the C7 witness. -/
def c7wItemB : EvidenceItem :=
  { url := "u1", title := "second", snippet := "b", domain := "example.com",
    published_at := none, relevance_score := 0, domain_reputation := 1, combined_score := 0 }

/-- Second distinct evidence item used by the C7 witness. -/
def c7wItemC : EvidenceItem :=
  { url := "u2", title := "third", snippet := "c", domain := "example.com",
    published_at := none, relevance_score := 0, domain_reputation := 1, combined_score := 0 }

/-- Search behaviour delivering a duplicate URL, used by the C7 witness. -/
def c7wOracle : String → Except String (List EvidenceItem) :=
  fun _ => Except.ok [c7wItemA, c7wItemB, c7wItemC]

/-- Query map used by the C7 witness. -/
def c7wQueries : List (String × List String) := [("c1", ["q1"])]

/-- Witness for C7: a search result with a duplicate URL is deduplicated
keeping the first-seen item. -/
theorem C7_witness :
    ((("c1", [c7wItemA, c7wItemC]) : String × List EvidenceItem).2.map
      (fun e => e.url)).Nodup ∧
    (("c1", [c7wItemA, c7wItemC]) : String × List EvidenceItem).2 =
      keepFirstByUrl [] (arrivalsFor "c1" (gatherResults c7wOracle c7wQueries)) := by
  have h : fetchEvidence c7wOracle c7wQueries = [("c1", [c7wItemA, c7wItemC])] := rfl
  exact C7_fetch_evidence_dedup c7wOracle c7wQueries ("c1", [c7wItemA, c7wItemC])
    (h ▸ List.mem_singleton.mpr rfl)

/-! ## Query planner theorems -/

theorem dictFind_dictSet_self {α : Type} (m : List (String × α)) (k : String) (v : α) :
    dictFind (dictSet m k v) k = some v := by
  induction m with
  | nil => simp [dictSet, dictFind]
  | cons p rest ih =>
    rcases p with ⟨k1, v1⟩
    simp only [dictSet, beq_iff_eq]
    by_cases hk : k1 = k
    · rw [if_pos hk]
      simp [dictFind, hk]
    · rw [if_neg hk]
      simp only [dictFind, beq_iff_eq, if_neg hk]
      exact ih

theorem dictFind_dictSet_other {α : Type} (m : List (String × α)) (k1 k : String) (v : α)
    (hne : k ≠ k1) : dictFind (dictSet m k1 v) k = dictFind m k := by
  induction m with
  | nil => simp [dictSet, dictFind, beq_iff_eq, Ne.symm hne]
  | cons p rest ih =>
    rcases p with ⟨k2, v2⟩
    simp only [dictSet, beq_iff_eq]
    by_cases hk : k2 = k1
    · rw [if_pos hk]
      simp only [dictFind, beq_iff_eq]
      rw [if_neg (fun he => hne (he.symm.trans hk)), if_neg (fun he => hne (he.symm.trans hk))]
    · rw [if_neg hk]
      simp only [dictFind, beq_iff_eq]
      by_cases hk2 : k2 = k
      · rw [if_pos hk2, if_pos hk2]
      · rw [if_neg hk2, if_neg hk2]
        exact ih

theorem planQueriesLoop_find_absent
    (planOracle : ClaimDict → Except String (Option (List String)))
    (claims : List ClaimDict) :
    ∀ (m : List (String × List String)) (k : String), k ∉ claims.map (fun c => c.id) →
      dictFind (planQueriesLoop planOracle claims m) k = dictFind m k := by
  induction claims with
  | nil => intro m k _; rfl
  | cons c rest ih =>
    intro m k hk
    simp only [List.map_cons, List.mem_cons] at hk
    push_neg at hk
    simp only [planQueriesLoop]
    rw [ih _ k hk.2]
    exact dictFind_dictSet_other m c.id k _ hk.1

theorem planQueriesLoop_find (planOracle : ClaimDict → Except String (Option (List String)))
    (claims : List ClaimDict) :
    ∀ (m : List (String × List String)), (claims.map (fun c => c.id)).Nodup →
      ∀ c ∈ claims, dictFind (planQueriesLoop planOracle claims m) c.id =
        some (queriesForClaim planOracle c) := by
  induction claims with
  | nil => intro m _ c hc; simp at hc
  | cons c0 rest ih =>
    intro m hnodup c hc
    simp only [List.map_cons, List.nodup_cons] at hnodup
    rcases List.mem_cons.mp hc with hceq | hcrest
    · subst hceq
      simp only [planQueriesLoop]
      rw [planQueriesLoop_find_absent planOracle rest _ c.id hnodup.1]
      exact dictFind_dictSet_self m c.id _
    · simp only [planQueriesLoop]
      exact ih _ hnodup.2 c hcrest

/-- Oracle returning a successfully parsed empty JSON array, used by the C8
counterexample. -/
def c8Oracle : ClaimDict → Except String (Option (List String)) :=
  fun _ => Except.ok (some [])

/-- Claim used by the C8 counterexample. -/
def c8Claim : ClaimDict :=
  { id := "c1", text := "The sky is blue", claim_type := "general",
    topic := "general", time_sensitivity := "low" }

/-- Counterexample to C8 as stated: when the LLM output parses to the empty
JSON array, plan_queries assigns the claim zero queries, not between 1 and
3 (the fallback only fires on exceptions or missing brackets). -/
theorem C8_counterexample :
    dictFind (planQueries c8Oracle [c8Claim]) "c1" = some [] ∧
    ¬(1 ≤ ([] : List String).length ∧ ([] : List String).length ≤ 3) := by
  constructor
  · rfl
  · intro h
    simp at h

/-- Claim C8 (amended): every input claim receives an entry of at most 3
queries; the entry is the claim text truncated to 100 characters exactly
when the call raised or no bracket pair was found; a successfully parsed
array is truncated to 3, and the entry is empty only when that parsed
array was empty. -/
theorem C8_plan_queries_amended
    (planOracle : ClaimDict → Except String (Option (List String)))
    (claims : List ClaimDict)
    (hnodup : (claims.map (fun c => c.id)).Nodup) :
    ∀ c ∈ claims, ∃ qs,
      dictFind (planQueries planOracle claims) c.id = some qs ∧
      qs.length ≤ 3 ∧
      (∀ e, planOracle c = .error e → qs = [c.text.take 100]) ∧
      (planOracle c = .ok none → qs = [c.text.take 100]) ∧
      (∀ l, planOracle c = .ok (some l) → qs = l.take 3) ∧
      (qs = [] → planOracle c = .ok (some [])) := by
  intro c hc
  have hne : claims.isEmpty = false := by
    cases claims with
    | nil => simp at hc
    | cons a b => rfl
  refine ⟨queriesForClaim planOracle c, ?_, ?_, ?_, ?_, ?_, ?_⟩
  · unfold planQueries
    rw [hne]
    simp only [Bool.false_eq_true, if_false]
    exact planQueriesLoop_find planOracle claims [] hnodup c hc
  · unfold queriesForClaim
    cases ho : planOracle c with
    | error e => simp
    | ok p =>
      cases p with
      | none => simp
      | some l => exact List.length_take_le 3 l
  · intro e he
    unfold queriesForClaim
    rw [he]
  · intro he
    unfold queriesForClaim
    rw [he]
    rfl
  · intro l hl
    unfold queriesForClaim
    rw [hl]
  · intro hempty
    unfold queriesForClaim at hempty
    cases ho : planOracle c with
    | error e =>
      rw [ho] at hempty
      have h2 : [c.text.take 100] = ([] : List String) := hempty
      simp at h2
    | ok p =>
      cases p with
      | none =>
        rw [ho] at hempty
        have h2 : List.take 3 [c.text.take 100] = ([] : List String) := hempty
        simp at h2
      | some l =>
        rw [ho] at hempty
        have h2 : List.take 3 l = ([] : List String) := hempty
        have h3 : l = [] := by
          rcases (List.take_eq_nil_iff).mp h2 with h4 | h4
          · exact absurd h4 (by norm_num)
          · exact h4
        rw [h3]

/-- Second claim used by the C8 witness. -/
def c8ClaimB : ClaimDict :=
  { id := "c2", text := "Water boils at 100 C", claim_type := "numeric",
    topic := "general", time_sensitivity := "low" }

/-- Mixed oracle used by the C8 witness: the first claim times out, the
second gets a parsed four-element array. -/
def c8wOracle : ClaimDict → Except String (Option (List String)) :=
  fun cl => if cl.id = "c1" then Except.error "timeout"
    else Except.ok (some ["a", "b", "c", "d"])

/-- Witness for the amended C8: the entry of the first claim of a
two-claim input whose planner call times out. -/
theorem C8_witness :
    ∃ qs,
      dictFind (planQueries c8wOracle [c8Claim, c8ClaimB]) c8Claim.id = some qs ∧
      qs.length ≤ 3 ∧
      (∀ e, c8wOracle c8Claim = .error e → qs = [c8Claim.text.take 100]) ∧
      (c8wOracle c8Claim = .ok none → qs = [c8Claim.text.take 100]) ∧
      (∀ l, c8wOracle c8Claim = .ok (some l) → qs = l.take 3) ∧
      (qs = [] → c8wOracle c8Claim = .ok (some [])) :=
  C8_plan_queries_amended c8wOracle [c8Claim, c8ClaimB] (by decide) c8Claim
    (List.mem_cons_self c8Claim [c8ClaimB])

/-! ## Verification agent theorems -/

theorem verifyClaims_eq_map
    (verdictOracle : ClaimDict → List EvidenceItem → Except String RawVerdict)
    (claims : List ClaimDict) (evidence : List (String × List EvidenceItem)) :
    verifyClaims verdictOracle claims evidence = claims.map (fun claim =>
      match verifySingleClaim verdictOracle claim ((dictFind evidence claim.id).getD []) with
      | .ok v => { v with claim_id := claim.id }
      | .error _ => fallbackVerdict claim.id) := by
  unfold verifyClaims
  cases claims with
  | nil => simp
  | cons a b => rfl

/-- Claim C9: verify_claims is total, returns exactly one verdict per input
claim carrying that claim id, every confidence lies in [0, 1], and whenever
verification of a single claim fails for any reason the verdict is the
conservative fallback (not_verifiable, confidence 0.0, explanatory
reasoning, empty source lists). -/
theorem C9_verify_claims
    (verdictOracle : ClaimDict → List EvidenceItem → Except String RawVerdict)
    (claims : List ClaimDict)
    (evidence : List (String × List EvidenceItem)) :
    (verifyClaims verdictOracle claims evidence).length = claims.length ∧
    List.Forall₂ (fun (c : ClaimDict) (v : VerdictDict) =>
        v.claim_id = c.id ∧ 0 ≤ v.confidence ∧ v.confidence ≤ 1 ∧
        (∀ e, verdictOracle c ((dictFind evidence c.id).getD []) = .error e →
          v = fallbackVerdict c.id))
      claims (verifyClaims verdictOracle claims evidence) := by
  rw [verifyClaims_eq_map]
  have hP : ∀ c : ClaimDict,
      (fun (c : ClaimDict) (v : VerdictDict) =>
        v.claim_id = c.id ∧ 0 ≤ v.confidence ∧ v.confidence ≤ 1 ∧
        (∀ e, verdictOracle c ((dictFind evidence c.id).getD []) = .error e →
          v = fallbackVerdict c.id)) c
      (match verifySingleClaim verdictOracle c ((dictFind evidence c.id).getD []) with
       | .ok v => { v with claim_id := c.id }
       | .error _ => fallbackVerdict c.id) := by
    intro c
    cases ho : verdictOracle c ((dictFind evidence c.id).getD []) with
    | ok r =>
      have h1 : verifySingleClaim verdictOracle c ((dictFind evidence c.id).getD []) =
          .ok { claim_id := ""
                verdict := (r.verdict.getD "not_verifiable").toLower
                confidence := max 0.0 (min 1.0 (r.confidence.getD 0.5))
                reasoning := r.reasoning.getD ""
                supporting_sources := r.supporting_sources.getD []
                contradicting_sources := r.contradicting_sources.getD []
                model_used := LLM_MODEL } := by
        unfold verifySingleClaim
        rw [ho]
      rw [h1]
      refine ⟨rfl, ?_, ?_, ?_⟩
      · exact le_trans (by norm_num) (le_max_left _ _)
      · exact max_le (by norm_num) (le_trans (min_le_left _ _) (by norm_num))
      · intro e he
        exact absurd he (by simp)
    | error e0 =>
      have h1 : verifySingleClaim verdictOracle c ((dictFind evidence c.id).getD []) =
          .error e0 := by
        unfold verifySingleClaim
        rw [ho]
      rw [h1]
      refine ⟨rfl, ?_, ?_, fun _ _ => rfl⟩
      · show (0 : ℝ) ≤ (fallbackVerdict c.id).confidence
        unfold fallbackVerdict
        norm_num
      · show (fallbackVerdict c.id).confidence ≤ 1
        unfold fallbackVerdict
        norm_num
  constructor
  · rw [List.length_map]
  · induction claims with
    | nil => exact List.Forall₂.nil
    | cons a b ih => exact List.Forall₂.cons (hP a) ih

/-- Claim used by the C9 witness. -/
def c9Claim : ClaimDict :=
  { id := "w1", text := "t", claim_type := "general", topic := "general",
    time_sensitivity := "low" }

/-- Always-failing verdict oracle used by the C9 witness. -/
def c9Oracle : ClaimDict → List EvidenceItem → Except String RawVerdict :=
  fun _ _ => Except.error "rate limited"

/-- Witness for C9 on a singleton claim list with a failing oracle. -/
theorem C9_witness :
    (verifyClaims c9Oracle [c9Claim] []).length = 1 ∧
    List.Forall₂ (fun (c : ClaimDict) (v : VerdictDict) =>
        v.claim_id = c.id ∧ 0 ≤ v.confidence ∧ v.confidence ≤ 1 ∧
        (∀ e, c9Oracle c ((dictFind ([] : List (String × List EvidenceItem)) c.id).getD []) =
            .error e → v = fallbackVerdict c.id))
      [c9Claim] (verifyClaims c9Oracle [c9Claim] []) :=
  C9_verify_claims c9Oracle [c9Claim] []

/-! ## Pipeline failure-isolation theorems -/

theorem runIngestion_errors (oc : StageOracles) (st : PipelineState) :
    ∃ d, (runIngestion oc st).errors = st.errors ++ d ∧ d.length ≤ 1 := by
  unfold runIngestion
  cases oc.ingestion st.raw_text with
  | ok p =>
    rcases p with ⟨t, wc⟩
    exact ⟨[], by simp, by norm_num⟩
  | error e => exact ⟨["Ingestion error: " ++ e], rfl, by norm_num⟩

theorem runClaimDecomposition_errors (oc : StageOracles) (st : PipelineState) :
    ∃ d, (runClaimDecomposition oc st).errors = st.errors ++ d ∧ d.length ≤ 1 := by
  unfold runClaimDecomposition
  cases oc.decomposer st.clean_text st.vertical with
  | ok cs => exact ⟨[], by simp, by norm_num⟩
  | error e => exact ⟨["Claim decomposition error: " ++ e], rfl, by norm_num⟩

theorem runClaimClassification_errors (oc : StageOracles) (st : PipelineState) :
    ∃ d, (runClaimClassification oc st).errors = st.errors ++ d ∧ d.length ≤ 1 := by
  unfold runClaimClassification
  cases oc.classifier st.extracted_claims with
  | ok v => exact ⟨[], by simp, by norm_num⟩
  | error e => exact ⟨["Classification error: " ++ e], rfl, by norm_num⟩

theorem runQueryPlanning_errors (oc : StageOracles) (st : PipelineState) :
    ∃ d, (runQueryPlanning oc st).errors = st.errors ++ d ∧ d.length ≤ 1 := by
  unfold runQueryPlanning
  cases oc.planner st.verifiable_claims st.vertical with
  | ok q => exact ⟨[], by simp, by norm_num⟩
  | error e => exact ⟨["Query planning error: " ++ e], rfl, by norm_num⟩

theorem runRetrieval_errors (oc : StageOracles) (st : PipelineState) :
    ∃ d, (runRetrieval oc st).errors = st.errors ++ d ∧ d.length ≤ 1 := by
  unfold runRetrieval
  cases oc.retrieval st.search_queries with
  | ok ev => exact ⟨[], by simp, by norm_num⟩
  | error e => exact ⟨["Retrieval error: " ++ e], rfl, by norm_num⟩

theorem runEvidenceRanking_errors (oc : StageOracles) (st : PipelineState) :
    ∃ d, (runEvidenceRanking oc st).errors = st.errors ++ d ∧ d.length ≤ 1 := by
  unfold runEvidenceRanking
  cases oc.ranker st.verifiable_claims st.raw_evidence with
  | ok r => exact ⟨[], by simp, by norm_num⟩
  | error e => exact ⟨["Ranking error: " ++ e], rfl, by norm_num⟩

theorem runVerificationStage_errors (oc : StageOracles) (st : PipelineState) :
    ∃ d, (runVerificationStage oc st).errors = st.errors ++ d ∧ d.length ≤ 1 := by
  unfold runVerificationStage
  cases oc.verifier st.verifiable_claims st.ranked_evidence with
  | ok v => exact ⟨[], by simp, by norm_num⟩
  | error e => exact ⟨["Verification error: " ++ e], rfl, by norm_num⟩

theorem runExplanation_errors (oc : StageOracles) (st : PipelineState) :
    ∃ d, (runExplanation oc st).errors = st.errors ++ d ∧ d.length ≤ 1 := by
  unfold runExplanation
  cases oc.explanation st.verifiable_claims st.verdicts st.ranked_evidence with
  | ok c => exact ⟨[], by simp, by norm_num⟩
  | error e => exact ⟨["Explanation error: " ++ e], rfl, by norm_num⟩

theorem pipelineRun_errors (oc : StageOracles) (st : PipelineState) :
    ∃ ds, (pipelineRun oc st).errors = st.errors ++ ds ∧ ds.length ≤ 8 := by
  obtain ⟨d1, h1, l1⟩ := runIngestion_errors oc st
  obtain ⟨d2, h2, l2⟩ := runClaimDecomposition_errors oc (runIngestion oc st)
  obtain ⟨d3, h3, l3⟩ := runClaimClassification_errors oc
    (runClaimDecomposition oc (runIngestion oc st))
  obtain ⟨d4, h4, l4⟩ := runQueryPlanning_errors oc
    (runClaimClassification oc (runClaimDecomposition oc (runIngestion oc st)))
  obtain ⟨d5, h5, l5⟩ := runRetrieval_errors oc
    (runQueryPlanning oc (runClaimClassification oc
      (runClaimDecomposition oc (runIngestion oc st))))
  obtain ⟨d6, h6, l6⟩ := runEvidenceRanking_errors oc
    (runRetrieval oc (runQueryPlanning oc (runClaimClassification oc
      (runClaimDecomposition oc (runIngestion oc st)))))
  obtain ⟨d7, h7, l7⟩ := runVerificationStage_errors oc
    (runEvidenceRanking oc (runRetrieval oc (runQueryPlanning oc
      (runClaimClassification oc (runClaimDecomposition oc (runIngestion oc st))))))
  obtain ⟨d8, h8, l8⟩ := runExplanation_errors oc
    (runVerificationStage oc (runEvidenceRanking oc (runRetrieval oc
      (runQueryPlanning oc (runClaimClassification oc
        (runClaimDecomposition oc (runIngestion oc st)))))))
  refine ⟨d1 ++ d2 ++ d3 ++ d4 ++ d5 ++ d6 ++ d7 ++ d8, ?_, ?_⟩
  · unfold pipelineRun
    rw [h8, h7, h6, h5, h4, h3, h2, h1]
    simp [List.append_assoc]
  · simp only [List.length_append]
    omega

theorem calculatePageScore_bounds (claims : List ClaimResult) :
    0 ≤ calculatePageScore claims ∧ calculatePageScore claims ≤ 100 := by
  unfold calculatePageScore
  by_cases h1 : claims.isEmpty = true
  · rw [if_pos h1]
    norm_num
  · rw [if_neg h1]
    by_cases h2 : totalWeightFrom claims 0 = 0
    · rw [if_pos h2]
      norm_num
    · rw [if_neg h2]
      exact ⟨le_min (by norm_num) (le_max_left 0 _), min_le_left _ _⟩

/-- Claim C5: for every behaviour of the external capabilities, including
exception-raising behaviours inside any stage, no exception crosses a stage
boundary: each stage wrapper catches the exception, appends a diagnostic
string to the error list and substitutes the documented fallback (previous
data passed through or an empty collection); the run completes with at most
one diagnostic per wrapped stage, and the final score-aggregation stage is
total with its result in [0, 100]. -/
theorem C5_failure_isolation (oc : StageOracles) (st : PipelineState) :
    (∀ e, oc.ingestion st.raw_text = .error e →
      runIngestion oc st = { st with
        clean_text := st.raw_text
        errors := st.errors ++ ["Ingestion error: " ++ e] }) ∧
    (∀ e, oc.decomposer st.clean_text st.vertical = .error e →
      runClaimDecomposition oc st = { st with
        extracted_claims := []
        errors := st.errors ++ ["Claim decomposition error: " ++ e] }) ∧
    (∀ e, oc.classifier st.extracted_claims = .error e →
      runClaimClassification oc st = { st with
        verifiable_claims := st.extracted_claims
        errors := st.errors ++ ["Classification error: " ++ e] }) ∧
    (∀ e, oc.planner st.verifiable_claims st.vertical = .error e →
      runQueryPlanning oc st = { st with
        errors := st.errors ++ ["Query planning error: " ++ e] }) ∧
    (∀ e, oc.retrieval st.search_queries = .error e →
      runRetrieval oc st = { st with
        errors := st.errors ++ ["Retrieval error: " ++ e] }) ∧
    (∀ e, oc.ranker st.verifiable_claims st.raw_evidence = .error e →
      runEvidenceRanking oc st = { st with
        ranked_evidence := st.raw_evidence
        errors := st.errors ++ ["Ranking error: " ++ e] }) ∧
    (∀ e, oc.verifier st.verifiable_claims st.ranked_evidence = .error e →
      runVerificationStage oc st = { st with
        errors := st.errors ++ ["Verification error: " ++ e] }) ∧
    (∀ e, oc.explanation st.verifiable_claims st.verdicts st.ranked_evidence = .error e →
      runExplanation oc st = { st with
        claims := []
        errors := st.errors ++ ["Explanation error: " ++ e] }) ∧
    (∃ ds, (pipelineRun oc st).errors = st.errors ++ ds ∧ ds.length ≤ 8) ∧
    (0 ≤ calculatePageScore ((pipelineRun oc st).claims) ∧
      calculatePageScore ((pipelineRun oc st).claims) ≤ 100) := by
  refine ⟨?_, ?_, ?_, ?_, ?_, ?_, ?_, ?_, pipelineRun_errors oc st,
    calculatePageScore_bounds ((pipelineRun oc st).claims)⟩
  · intro e he
    unfold runIngestion
    rw [he]
  · intro e he
    unfold runClaimDecomposition
    rw [he]
  · intro e he
    unfold runClaimClassification
    rw [he]
  · intro e he
    unfold runQueryPlanning
    rw [he]
  · intro e he
    unfold runRetrieval
    rw [he]
  · intro e he
    unfold runEvidenceRanking
    rw [he]
  · intro e he
    unfold runVerificationStage
    rw [he]
  · intro e he
    unfold runExplanation
    rw [he]

/-- Stage oracles in which every external call raises, used by the C5
witness. -/
def c5FailOracles : StageOracles :=
  { ingestion := fun _ => .error "x1"
    decomposer := fun _ _ => .error "x2"
    classifier := fun _ => .error "x3"
    planner := fun _ _ => .error "x4"
    retrieval := fun _ => .error "x5"
    ranker := fun _ _ => .error "x6"
    verifier := fun _ _ => .error "x7"
    explanation := fun _ _ _ => .error "x8" }

/-- Initial state used by the C5 witness. -/
def c5St : PipelineState := initState "raw text" none "general" "en"

/-- Witness for C5: with every external call raising, the ingestion and
ranking wrappers substitute their fallbacks, the run completes with at most
eight diagnostics, and the aggregated score is still in range. -/
theorem C5_witness :
    runIngestion c5FailOracles c5St = { c5St with
      clean_text := c5St.raw_text
      errors := c5St.errors ++ ["Ingestion error: " ++ "x1"] } ∧
    runEvidenceRanking c5FailOracles c5St = { c5St with
      ranked_evidence := c5St.raw_evidence
      errors := c5St.errors ++ ["Ranking error: " ++ "x6"] } ∧
    (∃ ds, (pipelineRun c5FailOracles c5St).errors = c5St.errors ++ ds ∧ ds.length ≤ 8) ∧
    (0 ≤ calculatePageScore ((pipelineRun c5FailOracles c5St).claims) ∧
      calculatePageScore ((pipelineRun c5FailOracles c5St).claims) ≤ 100) := by
  obtain ⟨h1, h2, h3, h4, h5, h6, h7, h8, h9, h10⟩ :=
    C5_failure_isolation c5FailOracles c5St
  exact ⟨h1 "x1" rfl, h6 "x6" rfl, h9, h10⟩

/-! ## Ranked-evidence length invariant (C6) -/

theorem runVerificationStage_ranked (oc : StageOracles) (st : PipelineState) :
    (runVerificationStage oc st).ranked_evidence = st.ranked_evidence := by
  unfold runVerificationStage
  cases oc.verifier st.verifiable_claims st.ranked_evidence <;> rfl

theorem runExplanation_ranked (oc : StageOracles) (st : PipelineState) :
    (runExplanation oc st).ranked_evidence = st.ranked_evidence := by
  unfold runExplanation
  cases oc.explanation st.verifiable_claims st.verdicts st.ranked_evidence <;> rfl

/-- The pipeline state after the first five stages (just before ranking). -/
def midState (oc : StageOracles) (st : PipelineState) : PipelineState :=
  runRetrieval oc (runQueryPlanning oc (runClaimClassification oc
    (runClaimDecomposition oc (runIngestion oc st))))

/-- Evidence item with a given URL and neutral numeric fields, used by the
C6 counterexample. -/
def c6Item (u : String) : EvidenceItem :=
  { url := u, title := "", snippet := "", domain := "example.com",
    published_at := none, relevance_score := 0, domain_reputation := 1, combined_score := 0 }

/-- Eleven distinct-URL raw evidence items for one claim (3 queries times 5
results per query can produce up to 15). -/
def c6Items : List EvidenceItem :=
  [c6Item "u1", c6Item "u2", c6Item "u3", c6Item "u4", c6Item "u5", c6Item "u6",
   c6Item "u7", c6Item "u8", c6Item "u9", c6Item "u10", c6Item "u11"]

/-- Claim used by the C6 counterexample. -/
def c6Claim : ClaimDict :=
  { id := "c1", text := "t", claim_type := "general", topic := "general",
    time_sensitivity := "low" }

/-- Oracles of a run in which the evidence-ranking stage raises while the
retrieval stage delivered eleven items for the claim. -/
def c6Oracles : StageOracles :=
  { ingestion := fun t => .ok (t, 2)
    decomposer := fun _ _ => .ok [c6Claim]
    classifier := fun cs => .ok cs
    planner := fun _ _ => .ok [("c1", ["q1", "q2", "q3"])]
    retrieval := fun _ => .ok [("c1", c6Items)]
    ranker := fun _ _ => .error "rate limit"
    verifier := fun _ _ => .ok []
    explanation := fun _ _ _ => .ok [] }

/-- Counterexample to C6 as stated: when the ranking stage fails, the
fallback substitutes the untruncated raw evidence, so the ranked evidence
held in the final pipeline state has 11 > MAX_EVIDENCE_PER_CLAIM = 10 items
for the claim. -/
theorem C6_counterexample :
    (pipelineRun c6Oracles (initState "text" none "general" "en")).ranked_evidence =
      [("c1", c6Items)] ∧
    MAX_EVIDENCE_PER_CLAIM < c6Items.length := by
  constructor
  · rfl
  · show 10 < c6Items.length
    decide

/-- Claim C6 (amended): the ranker itself always truncates every per-claim
list to at most maxPerClaim items, and in every pipeline run in which the
evidence-ranking stage succeeds with lists within the maximum, the ranked
evidence in the final state keeps that bound; the bound can only be
exceeded through the failure fallback that substitutes raw evidence. -/
theorem C6_ranked_length_amended :
    (∀ (relOracle : ClaimDict → EvidenceItem → Except String ℝ)
       (ageOf : Option String → Option ℤ)
       (claims : List ClaimDict) (evidence : List (String × List EvidenceItem))
       (maxPerClaim : ℕ),
      ∀ q ∈ rankEvidence relOracle ageOf claims evidence maxPerClaim,
        q.2.length ≤ maxPerClaim) ∧
    (∀ (oc : StageOracles) (st : PipelineState) (r : List (String × List EvidenceItem)),
      oc.ranker (midState oc st).verifiable_claims (midState oc st).raw_evidence = .ok r →
      (∀ q ∈ r, q.2.length ≤ MAX_EVIDENCE_PER_CLAIM) →
      ∀ q ∈ (pipelineRun oc st).ranked_evidence, q.2.length ≤ MAX_EVIDENCE_PER_CLAIM) := by
  constructor
  · intro relOracle ageOf claims evidence maxPerClaim q hq
    unfold rankEvidence at hq
    by_cases hg : (claims.isEmpty || evidence.isEmpty) = true
    · rw [if_pos hg] at hq
      simp at hq
    · rw [if_neg hg] at hq
      obtain ⟨p, hp, hpq⟩ := List.mem_filterMap.mp hq
      rcases hc : claimsById claims p.1 with _ | c
      · rw [hc] at hpq
        simp at hpq
      · rw [hc] at hpq
        simp only [Option.some_inj] at hpq
        subst hpq
        simp only [List.length_take]
        exact min_le_left _ _
  · intro oc st r hok hlen q hq
    have h1 : (runEvidenceRanking oc (midState oc st)).ranked_evidence = r := by
      unfold runEvidenceRanking
      rw [hok]
    have h2 : (pipelineRun oc st).ranked_evidence = r := by
      show (runExplanation oc (runVerificationStage oc
        (runEvidenceRanking oc (midState oc st)))).ranked_evidence = r
      rw [runExplanation_ranked, runVerificationStage_ranked, h1]
    rw [h2] at hq
    exact hlen q hq

/-- Oracles of a run with a succeeding (empty-result) ranking stage, used
by the C6 witness. -/
def c6OkOracles : StageOracles :=
  { ingestion := fun t => .ok (t, 2)
    decomposer := fun _ _ => .ok [c6Claim]
    classifier := fun cs => .ok cs
    planner := fun _ _ => .ok [("c1", ["q1"])]
    retrieval := fun _ => .ok [("c1", c6Items)]
    ranker := fun _ _ => .ok [("c1", [])]
    verifier := fun _ _ => .ok []
    explanation := fun _ _ _ => .ok [] }

/-- Witness for the amended C6: a concrete ranker run is truncated to the
maximum, and a concrete successful pipeline run keeps the bound. -/
theorem C6_witness :
    (∀ q ∈ rankEvidence c2wOracle c2wAge [c2wClaim] [("c1", [c2wItem])]
        MAX_EVIDENCE_PER_CLAIM, q.2.length ≤ MAX_EVIDENCE_PER_CLAIM) ∧
    (∀ q ∈ (pipelineRun c6OkOracles (initState "text" none "general" "en")).ranked_evidence,
      q.2.length ≤ MAX_EVIDENCE_PER_CLAIM) := by
  refine ⟨fun q hq => C6_ranked_length_amended.1 c2wOracle c2wAge _ _ _ q hq, ?_⟩
  refine C6_ranked_length_amended.2 c6OkOracles _ [("c1", [])] rfl ?_
  intro q hq
  rw [List.mem_singleton] at hq
  rw [hq]
  norm_num

/-! ## Formatter neutral-fallback valuation (C10) -/

/-- Claim C10: when a verdict declares no supporting and no contradicting
URLs that match the ranked evidence, but ranked evidence exists, the
formatter stores the top 3 evidence items with role neutral inside the
supporting list of ClaimSources (there is no separate neutral list), and
consequently the score aggregator counts them in supporting_count, granting
the full support-ratio bonus, the supporting-count bonus and contribution
to the global-bonus eligibility total. -/
theorem C10_neutral_fallback_counts_as_supporting
    (parseDate : Option String → Option String)
    (evidence : List EvidenceItem)
    (s_urls c_urls : List String)
    (hs : ∀ url ∈ s_urls.take 5, evidenceByUrl evidence url = none)
    (hc : ∀ url ∈ c_urls.take 3, evidenceByUrl evidence url = none)
    (hne : evidence ≠ []) :
    (buildSources parseDate evidence s_urls c_urls).supporting =
      (evidence.take 3).map (fun e => mkSourceInfo parseDate e .neutral) ∧
    (buildSources parseDate evidence s_urls c_urls).contradicting = [] ∧
    (∀ s ∈ (buildSources parseDate evidence s_urls c_urls).supporting,
      s.role = SourceRole.neutral) ∧
    (buildSources parseDate evidence s_urls c_urls).supporting.length =
      min 3 evidence.length ∧
    ∀ cr : ClaimResult, cr.sources = buildSources parseDate evidence s_urls c_urls →
      supportingCount cr = min 3 evidence.length ∧
      0 < supportingCount cr ∧
      contradictingCount cr = 0 ∧
      totalSupporting [cr] = min 3 evidence.length ∧
      claimFinalScore cr = min 1.0 (verdictWeight cr.verdict * cr.confidence
        + 0.15 + min 0.15 (0.08 * Real.log ((min 3 evidence.length : ℕ) + 1 : ℝ))) := by
  have hsup : (s_urls.take 5).filterMap
      (fun url => (evidenceByUrl evidence url).map
        (fun e => mkSourceInfo parseDate e .supporting)) = [] := by
    refine List.filterMap_eq_nil_iff.mpr (fun url hu => ?_)
    rw [hs url hu]
    rfl
  have hcon : (c_urls.take 3).filterMap
      (fun url => (evidenceByUrl evidence url).map
        (fun e => mkSourceInfo parseDate e .contradicting)) = [] := by
    refine List.filterMap_eq_nil_iff.mpr (fun url hu => ?_)
    rw [hc url hu]
    rfl
  have hcond : ((((s_urls.take 5).filterMap
        (fun url => (evidenceByUrl evidence url).map
          (fun e => mkSourceInfo parseDate e .supporting))).isEmpty
      && (((c_urls.take 3).filterMap
        (fun url => (evidenceByUrl evidence url).map
          (fun e => mkSourceInfo parseDate e .contradicting))).isEmpty
      && !evidence.isEmpty)) = true) := by
    rw [hsup, hcon]
    cases evidence with
    | nil => exact absurd rfl hne
    | cons a l => rfl
  have hS : buildSources parseDate evidence s_urls c_urls =
      { supporting := (evidence.take 3).map (fun e => mkSourceInfo parseDate e .neutral)
        contradicting := [] } := by
    unfold buildSources
    rw [Bool.and_assoc, if_pos hcond, hcon]
  have hlenpos : 0 < evidence.length := by
    cases evidence with
    | nil => exact absurd rfl hne
    | cons a l => simp
  have hminpos : 0 < min 3 evidence.length := by omega
  refine ⟨by rw [hS], by rw [hS], ?_, ?_, ?_⟩
  · intro s hsmem
    rw [hS] at hsmem
    obtain ⟨e, _, he⟩ := List.mem_map.mp hsmem
    rw [← he]
    rfl
  · rw [hS]
    simp [List.length_take]
  · intro cr hcr
    have hsc : supportingCount cr = min 3 evidence.length := by
      unfold supportingCount
      rw [hcr, hS]
      simp [List.length_take]
    have hcc : contradictingCount cr = 0 := by
      unfold contradictingCount
      rw [hcr, hS]
      rfl
    refine ⟨hsc, by omega, hcc, ?_, ?_⟩
    · unfold totalSupporting
      simp [hsc]
    · unfold claimFinalScore
      rw [hsc, hcc]
      rw [if_pos (by omega : 0 < min 3 evidence.length + 0)]
      have hcast : ((min 3 evidence.length : ℕ) : ℝ) ≠ 0 := by
        have : (0 : ℝ) < ((min 3 evidence.length : ℕ) : ℝ) := by exact_mod_cast hminpos
        linarith
      have hrat : ((min 3 evidence.length : ℕ) : ℝ) /
          (((min 3 evidence.length : ℕ) : ℝ) + ((0 : ℕ) : ℝ)) = 1 := by
        simp only [Nat.cast_zero, add_zero]
        exact div_self hcast
      rw [hrat, Real.one_rpow, one_mul]

/-- Evidence list used by the C10 witness. -/
def c10Evidence : List EvidenceItem := [c6Item "e1"]

/-- Identity date parser used by the C10 witness. -/
def c10Parse : Option String → Option String := fun x => x

/-- Witness for C10 with one evidence item and a non-matching supporting
URL list. -/
theorem C10_witness :
    (buildSources c10Parse c10Evidence ["nomatch"] []).supporting =
      (c10Evidence.take 3).map (fun e => mkSourceInfo c10Parse e .neutral) ∧
    (buildSources c10Parse c10Evidence ["nomatch"] []).contradicting = [] ∧
    (∀ s ∈ (buildSources c10Parse c10Evidence ["nomatch"] []).supporting,
      s.role = SourceRole.neutral) ∧
    (buildSources c10Parse c10Evidence ["nomatch"] []).supporting.length =
      min 3 c10Evidence.length ∧
    ∀ cr : ClaimResult, cr.sources = buildSources c10Parse c10Evidence ["nomatch"] [] →
      supportingCount cr = min 3 c10Evidence.length ∧
      0 < supportingCount cr ∧
      contradictingCount cr = 0 ∧
      totalSupporting [cr] = min 3 c10Evidence.length ∧
      claimFinalScore cr = min 1.0 (verdictWeight cr.verdict * cr.confidence
        + 0.15 + min 0.15 (0.08 * Real.log ((min 3 c10Evidence.length : ℕ) + 1 : ℝ))) :=
  C10_neutral_fallback_counts_as_supporting c10Parse c10Evidence ["nomatch"] []
    (by
      intro url hu
      simp only [List.take, List.mem_singleton] at hu
      rw [hu]
      rfl)
    (by intro url hu; simp at hu)
    (by simp [c10Evidence])

/-! ## Score-aggregator helper lemmas (C1, C4) -/

theorem verdictWeight_nonneg (v : Verdict) : 0 ≤ verdictWeight v := by
  cases v <;> norm_num [verdictWeight]

theorem verdictWeight_le_one (v : Verdict) : verdictWeight v ≤ 1 := by
  cases v <;> norm_num [verdictWeight]

theorem positionWeight_pos (i : ℕ) : 0 < positionWeight i := by
  unfold positionWeight
  positivity

theorem claimFinalScore_nonneg (c : ClaimResult) (h : 0 ≤ c.confidence) :
    0 ≤ claimFinalScore c := by
  unfold claimFinalScore
  have hbase : 0 ≤ verdictWeight c.verdict * c.confidence :=
    mul_nonneg (verdictWeight_nonneg _) h
  by_cases hcnt : 0 < supportingCount c + contradictingCount c
  · rw [if_pos hcnt]
    have hsb : 0 ≤ ((supportingCount c : ℝ) /
        ((supportingCount c : ℝ) + (contradictingCount c : ℝ))) ^ (0.7 : ℝ) * 0.15 := by
      refine mul_nonneg (Real.rpow_nonneg ?_ _) (by norm_num)
      positivity
    have hcb : 0 ≤ min 0.15 (0.08 * Real.log ((supportingCount c : ℝ) + 1)) := by
      refine le_min (by norm_num) (mul_nonneg (by norm_num) (Real.log_nonneg ?_))
      have : (0 : ℝ) ≤ (supportingCount c : ℝ) := Nat.cast_nonneg _
      linarith
    exact le_min (by norm_num) (by linarith)
  · rw [if_neg hcnt]
    exact hbase

theorem weightedSumFrom_nonneg (l : List ClaimResult)
    (h : ∀ c ∈ l, 0 ≤ c.confidence) : ∀ i, 0 ≤ weightedSumFrom l i := by
  induction l with
  | nil => intro i; exact le_refl 0
  | cons c rest ih =>
    intro i
    have h1 : 0 ≤ claimFinalScore c * positionWeight i :=
      mul_nonneg (claimFinalScore_nonneg c (h c (List.mem_cons_self c rest)))
        (positionWeight_pos i).le
    have h2 : 0 ≤ weightedSumFrom rest (i + 1) :=
      ih (fun d hd => h d (List.mem_cons_of_mem c hd)) (i + 1)
    unfold weightedSumFrom
    linarith

theorem totalWeightFrom_nonneg (l : List ClaimResult) : ∀ i, 0 ≤ totalWeightFrom l i := by
  induction l with
  | nil => intro i; exact le_refl 0
  | cons c rest ih =>
    intro i
    have h1 := positionWeight_pos i
    have h2 := ih (i + 1)
    unfold totalWeightFrom
    linarith

theorem totalWeightFrom_pos (l : List ClaimResult) (hne : l ≠ []) :
    ∀ i, 0 < totalWeightFrom l i := by
  cases l with
  | nil => exact absurd rfl hne
  | cons c rest =>
    intro i
    have h1 := positionWeight_pos i
    have h2 := totalWeightFrom_nonneg rest (i + 1)
    unfold totalWeightFrom
    linarith

theorem pytrunc_eq_floor {x : ℝ} (h : 0 ≤ x) : pytrunc x = ⌊x⌋ := if_pos h

theorem pytrunc_mono {x y : ℝ} (h : x ≤ y) : pytrunc x ≤ pytrunc y := by
  unfold pytrunc
  by_cases hx : 0 ≤ x
  · rw [if_pos hx, if_pos (le_trans hx h)]
    exact Int.floor_le_floor h
  · rw [if_neg hx]
    by_cases hy : 0 ≤ y
    · rw [if_pos hy]
      have h1 : 0 ≤ ⌊-x⌋ := Int.floor_nonneg.mpr (by linarith)
      have h2 : 0 ≤ ⌊y⌋ := Int.floor_nonneg.mpr hy
      omega
    · rw [if_neg hy]
      have h1 : ⌊-y⌋ ≤ ⌊-x⌋ := Int.floor_le_floor (by linarith)
      omega

theorem totalWeightFrom_eq_of_length :
    ∀ (l1 l2 : List ClaimResult) (i : ℕ), l1.length = l2.length →
      totalWeightFrom l1 i = totalWeightFrom l2 i := by
  intro l1
  induction l1 with
  | nil =>
    intro l2 i h
    cases l2 with
    | nil => rfl
    | cons a b => simp at h
  | cons c rest ih =>
    intro l2 i h
    cases l2 with
    | nil => simp at h
    | cons d tail =>
      simp only [List.length_cons, Nat.succ_inj] at h
      unfold totalWeightFrom
      rw [ih tail (i + 1) h]

/-! ## Reference (spec 4.7) page-score formulation

The following definitions transcribe the wording of spec section 4.7 and of
the frozen claim; they are compared against the source embedding above. -/

/-- Reference per-claim contribution: min(1.0, verdict_weight * confidence
+ bonuses), the two bonuses added only when the claim has at least one
supporting or contradicting source. -/
noncomputable def specClaimContribution (c : ClaimResult) : ℝ :=
  min 1.0 (verdictWeight c.verdict * c.confidence +
    (if 0 < supportingCount c + contradictingCount c then
      ((supportingCount c : ℝ) /
          ((supportingCount c : ℝ) + (contradictingCount c : ℝ))) ^ (0.7 : ℝ) * 0.15
        + min 0.15 (0.08 * Real.log ((supportingCount c : ℝ) + 1))
     else 0))

/-- Reference position-weighted sum of contributions from index i. -/
noncomputable def specWeightedSumFrom : List ClaimResult → ℕ → ℝ
  | [], _ => 0
  | c :: rest, i => specClaimContribution c * positionWeight i + specWeightedSumFrom rest (i + 1)

/-- Reference global-bonus eligibility: overall supporting ratio at least
0.7 with at least 5 supporting sources, or at least 0.8 with at least 3. -/
def specGlobalCond (claims : List ClaimResult) : Prop :=
  (0.7 ≤ (totalSupporting claims : ℝ) /
      ((totalSupporting claims : ℝ) + (totalContradicting claims : ℝ)) ∧
    5 ≤ totalSupporting claims) ∨
  (0.8 ≤ (totalSupporting claims : ℝ) /
      ((totalSupporting claims : ℝ) + (totalContradicting claims : ℝ)) ∧
    3 ≤ totalSupporting claims)

theorem specClaimContribution_eq (c : ClaimResult)
    (h0 : 0 ≤ c.confidence) (h1 : c.confidence ≤ 1) :
    specClaimContribution c = claimFinalScore c := by
  unfold specClaimContribution claimFinalScore
  by_cases hcnt : 0 < supportingCount c + contradictingCount c
  · rw [if_pos hcnt, if_pos hcnt]
    rw [← add_assoc]
  · rw [if_neg hcnt, if_neg hcnt]
    rw [add_zero]
    refine min_eq_right ?_
    have := mul_le_one₀ (verdictWeight_le_one c.verdict) h0 h1
    linarith

theorem specWeightedSumFrom_eq (l : List ClaimResult)
    (h : ∀ c ∈ l, 0 ≤ c.confidence ∧ c.confidence ≤ 1) :
    ∀ i, specWeightedSumFrom l i = weightedSumFrom l i := by
  induction l with
  | nil => intro i; rfl
  | cons c rest ih =>
    intro i
    unfold specWeightedSumFrom weightedSumFrom
    rw [specClaimContribution_eq c (h c (List.mem_cons_self c rest)).1
      (h c (List.mem_cons_self c rest)).2]
    rw [ih (fun d hd => h d (List.mem_cons_of_mem c hd)) (i + 1)]

theorem two_mul_log_ge_one {n : ℕ} (hn : 5 ≤ n) : 1 ≤ 2 * Real.log (n : ℝ) := by
  have hn5 : (5 : ℝ) ≤ (n : ℝ) := by exact_mod_cast hn
  have hpos : (0 : ℝ) < (n : ℝ) := by linarith
  have hlog : (1 / 2 : ℝ) ≤ Real.log (n : ℝ) := by
    rw [Real.le_log_iff_exp_le hpos]
    have h1 : Real.exp (1 / 2 : ℝ) ≤ Real.exp 1 := Real.exp_le_exp.mpr (by norm_num)
    have h2 : Real.exp 1 < 2.7182818286 := Real.exp_one_lt_d9
    linarith
  linarith

theorem threehalf_mul_log_ge_one {n : ℕ} (hn : 3 ≤ n) : 1 ≤ 1.5 * Real.log (n : ℝ) := by
  have hn3 : (3 : ℝ) ≤ (n : ℝ) := by exact_mod_cast hn
  have hpos : (0 : ℝ) < (n : ℝ) := by linarith
  have hlog : (2 / 3 : ℝ) ≤ Real.log (n : ℝ) := by
    rw [Real.le_log_iff_exp_le hpos]
    have h1 : Real.exp (2 / 3 : ℝ) ≤ Real.exp 1 := Real.exp_le_exp.mpr (by norm_num)
    have h2 : Real.exp 1 < 2.7182818286 := Real.exp_one_lt_d9
    linarith
  linarith

theorem log_nonneg_of_one_le {n : ℕ} (hn : 1 ≤ n) : 0 ≤ Real.log (n : ℝ) :=
  Real.log_nonneg (by exact_mod_cast hn)

/-- The global bonus of the source is an integer in [0, 10] that is
positive exactly when the reference eligibility condition holds. -/
theorem globalBonus_spec (claims : List ClaimResult) :
    0 ≤ globalBonus claims ∧ globalBonus claims ≤ 10 ∧
      (0 < globalBonus claims ↔ specGlobalCond claims) := by
  unfold globalBonus specGlobalCond
  by_cases hts : 0 < totalSupporting claims
  · rw [if_pos hts]
    by_cases h1 : 0.7 ≤ (totalSupporting claims : ℝ) /
        ((totalSupporting claims : ℝ) + (totalContradicting claims : ℝ)) ∧
        5 ≤ totalSupporting claims
    · rw [if_pos h1]
      have hlogpos : 0 ≤ Real.log (totalSupporting claims : ℝ) :=
        log_nonneg_of_one_le (by omega)
      have hval : (1 : ℝ) ≤ min 10 (2 * Real.log (totalSupporting claims : ℝ)) :=
        le_min (by norm_num) (two_mul_log_ge_one h1.2)
      have hnn : (0 : ℝ) ≤ min 10 (2 * Real.log (totalSupporting claims : ℝ)) := by
        linarith
      rw [pytrunc_eq_floor hnn]
      refine ⟨Int.floor_nonneg.mpr hnn, ?_, ?_⟩
      · have hle : (⌊min 10 (2 * Real.log (totalSupporting claims : ℝ))⌋ : ℝ) ≤ 10 :=
          le_trans (Int.floor_le _) (min_le_left _ _)
        exact_mod_cast hle
      · constructor
        · intro _
          exact Or.inl h1
        · intro _
          have : (1 : ℤ) ≤ ⌊min 10 (2 * Real.log (totalSupporting claims : ℝ))⌋ :=
            Int.le_floor.mpr (by exact_mod_cast hval)
          omega
    · rw [if_neg h1]
      by_cases h2 : 0.8 ≤ (totalSupporting claims : ℝ) /
          ((totalSupporting claims : ℝ) + (totalContradicting claims : ℝ)) ∧
          3 ≤ totalSupporting claims
      · rw [if_pos h2]
        have hval : (1 : ℝ) ≤ min 8 (1.5 * Real.log (totalSupporting claims : ℝ)) :=
          le_min (by norm_num) (threehalf_mul_log_ge_one h2.2)
        have hnn : (0 : ℝ) ≤ min 8 (1.5 * Real.log (totalSupporting claims : ℝ)) := by
          linarith
        rw [pytrunc_eq_floor hnn]
        refine ⟨Int.floor_nonneg.mpr hnn, ?_, ?_⟩
        · have hle : (⌊min 8 (1.5 * Real.log (totalSupporting claims : ℝ))⌋ : ℝ) ≤ 8 :=
            le_trans (Int.floor_le _) (min_le_left _ _)
          have : ⌊min 8 (1.5 * Real.log (totalSupporting claims : ℝ))⌋ ≤ 8 := by
            exact_mod_cast hle
          omega
        · constructor
          · intro _
            exact Or.inr h2
          · intro _
            have : (1 : ℤ) ≤ ⌊min 8 (1.5 * Real.log (totalSupporting claims : ℝ))⌋ :=
              Int.le_floor.mpr (by exact_mod_cast hval)
            omega
      · rw [if_neg h2]
        refine ⟨le_refl 0, by norm_num, ?_⟩
        constructor
        · intro h
          exact absurd rfl (ne_of_lt h)
        · intro h
          rcases h with h | h
          · exact absurd h h1
          · exact absurd h h2
  · rw [if_neg hts]
    refine ⟨le_refl 0, by norm_num, ?_⟩
    constructor
    · intro h
      exact absurd rfl (ne_of_lt h)
    · intro h
      rcases h with h | h
      · exact absurd h.2 (by omega)
      · exact absurd h.2 (by omega)

/-- Claim C1: _calculate_page_score returns exactly the reference value of
spec section 4.7: an empty list yields 50; otherwise the score is the
position-weighted average of the per-claim reference contributions scaled
to 0-100 and truncated to an integer, increased by a global bonus of at
most +10 exactly when the overall supporting ratio is at least 0.7 with at
least 5 supporting sources or at least 0.8 with at least 3, and clamped to
[0, 100]. -/
theorem C1_page_score_matches_spec :
    calculatePageScore [] = 50 ∧
    ∀ claims : List ClaimResult, claims ≠ [] →
      (∀ c ∈ claims, 0 ≤ c.confidence ∧ c.confidence ≤ 1) →
      ∃ b : ℤ, 0 ≤ b ∧ b ≤ 10 ∧ (0 < b ↔ specGlobalCond claims) ∧
        calculatePageScore claims =
          min 100 (max 0
            (⌊specWeightedSumFrom claims 0 / totalWeightFrom claims 0 * 100⌋ + b)) := by
  constructor
  · rfl
  · intro claims hne hconf
    obtain ⟨hb0, hb10, hbiff⟩ := globalBonus_spec claims
    refine ⟨globalBonus claims, hb0, hb10, hbiff, ?_⟩
    have hie : claims.isEmpty = false := by
      cases claims with
      | nil => exact absurd rfl hne
      | cons a b => rfl
    have htw : 0 < totalWeightFrom claims 0 := totalWeightFrom_pos claims hne 0
    unfold calculatePageScore
    rw [if_neg (by rw [hie]; exact Bool.false_ne_true)]
    rw [if_neg htw.ne']
    rw [specWeightedSumFrom_eq claims hconf 0]
    rw [pytrunc_eq_floor]
    exact mul_nonneg
      (div_nonneg (weightedSumFrom_nonneg claims (fun c hc => (hconf c hc).1) 0) htw.le)
      (by norm_num)

/-- Claim result used by the C1 witness: supported verdict, confidence 0.9,
three supporting sources. -/
noncomputable def c1wClaim : ClaimResult :=
  { id := "c1"
    span := (0, 10)
    text := "t"
    claim_type := "general"
    topic := "general"
    time_sensitivity := "low"
    verdict := .supported
    confidence := 0.9
    reasoning := ""
    sources := { supporting := [mkSourceInfo c10Parse (c6Item "s1") .supporting,
                                mkSourceInfo c10Parse (c6Item "s2") .supporting,
                                mkSourceInfo c10Parse (c6Item "s3") .supporting]
                 contradicting := [] } }

/-- Witness for C1 on the empty list and on a one-claim list. -/
theorem C1_witness :
    calculatePageScore [] = 50 ∧
    ∃ b : ℤ, 0 ≤ b ∧ b ≤ 10 ∧ (0 < b ↔ specGlobalCond [c1wClaim]) ∧
      calculatePageScore [c1wClaim] =
        min 100 (max 0
          (⌊specWeightedSumFrom [c1wClaim] 0 / totalWeightFrom [c1wClaim] 0 * 100⌋ + b)) :=
  ⟨C1_page_score_matches_spec.1,
   C1_page_score_matches_spec.2 [c1wClaim] (by simp)
     (by
       intro c hc
       rw [List.mem_singleton] at hc
       rw [hc]
       unfold c1wClaim
       norm_num)⟩

/-! ## Monotonicity of the page score (C4) -/

theorem claimFinalScore_mono (c1 c2 : ClaimResult) (hsrc : c1.sources = c2.sources)
    (hbase : verdictWeight c1.verdict * c1.confidence ≤
      verdictWeight c2.verdict * c2.confidence) :
    claimFinalScore c1 ≤ claimFinalScore c2 := by
  have hs : supportingCount c1 = supportingCount c2 := by
    unfold supportingCount
    rw [hsrc]
  have hc : contradictingCount c1 = contradictingCount c2 := by
    unfold contradictingCount
    rw [hsrc]
  unfold claimFinalScore
  rw [hs, hc]
  by_cases hcnt : 0 < supportingCount c2 + contradictingCount c2
  · rw [if_pos hcnt, if_pos hcnt]
    exact min_le_min (le_refl _) (by linarith)
  · rw [if_neg hcnt, if_neg hcnt]
    exact hbase

theorem weightedSumFrom_mono (l1 l2 : List ClaimResult)
    (h : List.Forall₂ (fun a b => claimFinalScore a ≤ claimFinalScore b) l1 l2) :
    ∀ i, weightedSumFrom l1 i ≤ weightedSumFrom l2 i := by
  induction h with
  | nil => intro i; exact le_refl 0
  | cons hab htail ih =>
    intro i
    unfold weightedSumFrom
    exact add_le_add (mul_le_mul_of_nonneg_right hab (positionWeight_pos i).le) (ih (i + 1))

theorem totals_congr (pre post : List ClaimResult) (c1 c2 : ClaimResult)
    (hsrc : c1.sources = c2.sources) :
    totalSupporting (pre ++ c1 :: post) = totalSupporting (pre ++ c2 :: post) ∧
    totalContradicting (pre ++ c1 :: post) = totalContradicting (pre ++ c2 :: post) := by
  have hs : supportingCount c1 = supportingCount c2 := by
    unfold supportingCount
    rw [hsrc]
  have hc : contradictingCount c1 = contradictingCount c2 := by
    unfold contradictingCount
    rw [hsrc]
  unfold totalSupporting totalContradicting
  constructor
  · simp only [List.map_append, List.map_cons, List.sum_append, List.sum_cons]
    rw [hs]
  · simp only [List.map_append, List.map_cons, List.sum_append, List.sum_cons]
    rw [hc]

/-- Claim C4: raising the confidence of one claim, or replacing its verdict
by one of greater or equal verdict weight at equal confidence and equal
sources, never decreases the page score, all other inputs held fixed. -/
theorem C4_page_score_monotone (pre post : List ClaimResult) (c1 c2 : ClaimResult)
    (hsrc : c1.sources = c2.sources)
    (hcase : (c1.verdict = c2.verdict ∧ c1.confidence ≤ c2.confidence) ∨
      (verdictWeight c1.verdict ≤ verdictWeight c2.verdict ∧
        c1.confidence = c2.confidence ∧ 0 ≤ c1.confidence)) :
    calculatePageScore (pre ++ c1 :: post) ≤ calculatePageScore (pre ++ c2 :: post) := by
  have hbase : verdictWeight c1.verdict * c1.confidence ≤
      verdictWeight c2.verdict * c2.confidence := by
    rcases hcase with ⟨hv, hcle⟩ | ⟨hw, hceq, h0⟩
    · rw [hv]
      exact mul_le_mul_of_nonneg_left hcle (verdictWeight_nonneg _)
    · rw [← hceq]
      exact mul_le_mul_of_nonneg_right hw h0
  have hfs := claimFinalScore_mono c1 c2 hsrc hbase
  have hall : List.Forall₂ (fun a b => claimFinalScore a ≤ claimFinalScore b)
      (pre ++ c1 :: post) (pre ++ c2 :: post) := by
    refine List.rel_append (List.forall₂_same.mpr (fun a _ => le_refl (claimFinalScore a))) ?_
    exact List.Forall₂.cons hfs
      (List.forall₂_same.mpr (fun a _ => le_refl (claimFinalScore a)))
  have hws := weightedSumFrom_mono _ _ hall 0
  have hlen : (pre ++ c1 :: post).length = (pre ++ c2 :: post).length := by simp
  have htw := totalWeightFrom_eq_of_length (pre ++ c1 :: post) (pre ++ c2 :: post) 0 hlen
  have hne1 : (pre ++ c1 :: post) ≠ [] := by simp
  have hne2 : (pre ++ c2 :: post) ≠ [] := by simp
  have htwpos2 : 0 < totalWeightFrom (pre ++ c2 :: post) 0 :=
    totalWeightFrom_pos _ hne2 0
  have htwpos1 : 0 < totalWeightFrom (pre ++ c1 :: post) 0 :=
    totalWeightFrom_pos _ hne1 0
  have hie1 : (pre ++ c1 :: post).isEmpty = false := by cases pre <;> rfl
  have hie2 : (pre ++ c2 :: post).isEmpty = false := by cases pre <;> rfl
  obtain ⟨hts, htc⟩ := totals_congr pre post c1 c2 hsrc
  have hgb : globalBonus (pre ++ c1 :: post) = globalBonus (pre ++ c2 :: post) := by
    unfold globalBonus
    rw [hts, htc]
  have e1 : calculatePageScore (pre ++ c1 :: post) =
      min 100 (max 0 (pytrunc (weightedSumFrom (pre ++ c1 :: post) 0 /
        totalWeightFrom (pre ++ c1 :: post) 0 * 100) + globalBonus (pre ++ c1 :: post))) := by
    unfold calculatePageScore
    rw [if_neg (by rw [hie1]; exact Bool.false_ne_true), if_neg htwpos1.ne']
  have e2 : calculatePageScore (pre ++ c2 :: post) =
      min 100 (max 0 (pytrunc (weightedSumFrom (pre ++ c2 :: post) 0 /
        totalWeightFrom (pre ++ c2 :: post) 0 * 100) + globalBonus (pre ++ c2 :: post))) := by
    unfold calculatePageScore
    rw [if_neg (by rw [hie2]; exact Bool.false_ne_true), if_neg htwpos2.ne']
  rw [e1, e2, htw, hgb]
  refine min_le_min (le_refl _) (max_le_max (le_refl _) (add_le_add_right ?_ _))
  refine pytrunc_mono ?_
  exact mul_le_mul_of_nonneg_right
    (div_le_div_of_nonneg_right hws htwpos2.le) (by norm_num)

/-- Contradicted low claim used by the C4 witness. -/
noncomputable def c4Low : ClaimResult :=
  { id := "c1"
    span := (0, 10)
    text := "t"
    claim_type := "general"
    topic := "general"
    time_sensitivity := "low"
    verdict := .contradicted
    confidence := 0.8
    reasoning := ""
    sources := { supporting := [], contradicting := [] } }

/-- The same claim with a strongly_supported verdict, used by C4. -/
noncomputable def c4High : ClaimResult :=
  { c4Low with verdict := .strongly_supported }

/-- Witness for C4: replacing a contradicted verdict by strongly_supported
at equal confidence and sources never lowers the page score. -/
theorem C4_witness :
    calculatePageScore ([] ++ c4Low :: []) ≤ calculatePageScore ([] ++ c4High :: []) :=
  C4_page_score_monotone [] [] c4Low c4High rfl
    (Or.inr ⟨by norm_num [c4Low, c4High, verdictWeight], rfl,
      by norm_num [c4Low]⟩)

end TruthSeekers

